import Mathlib

set_option linter.unusedSectionVars false

/-!
Verification of the karting telemetry stitcher (`src/stitcher.py`).

The stitcher is embedded shallowly:

* A pandas `DataFrame` is a `DF α`: a list of column names plus rows of
  cells, a cell being `Option α` (`none` models `NaN`, i.e. a value whose
  numeric coercion failed or that was never attached).  Numeric values are
  modelled by an arbitrary linear ordered field `α`; claims about concrete
  runs instantiate `α := ℚ` or `α := ℝ` (the lateral-g formula mentions π,
  so it is stated over `ℝ`).  IEEE-float rounding is idealised away, as the
  claims are about structure and exact arithmetic on decimal inputs.
* Python string operations used by the stitcher (`str.lower`, `str.strip`,
  `'"'.replace`, substring membership `in`) are re-implemented over the
  character list of a `String` so that they evaluate inside the kernel.
  All header data is ASCII, where these agree with Python's semantics.
* File-system effects are made explicit: a file that may fail to open or
  parse is an `Option (Option _)` — `none` when the file is absent,
  `some none` when reading/parsing raises, `some (some x)` when it yields
  `x`.  CSV text parsing itself (delimiters, `skiprows`) is not modelled:
  a channel file enters the model as the `DF` that `pd.read_csv` produced,
  and a file scanned by the format detector enters as its list of lines.
-/

namespace KartStitch

/-! ### Python string primitives (ASCII semantics) -/

/-- `s.lower()` on ASCII data. -/
def strLower (s : String) : String := ⟨s.data.map Char.toLower⟩

/-- Characters removed by Python's `str.strip()` (the ones that can occur
in this data). -/
def isSpaceC (c : Char) : Bool := c = ' ' || c = '\t' || c = '\n' || c = '\r'

/-- `s.strip()`. -/
def strStrip (s : String) : String :=
  ⟨((s.data.dropWhile isSpaceC).reverse.dropWhile isSpaceC).reverse⟩

/-- `s.replace('"', '')` — the pattern is a single character, so this is a
filter. -/
def stripQuotes (s : String) : String := ⟨s.data.filter (fun c => !(c = '"'))⟩

/-- Contiguous-sublist test, used for Python's substring membership. -/
def subList {β : Type} [DecidableEq β] : List β → List β → Bool
  | _, [] => false
  | pat, (c :: rest) => (pat.isPrefixOf (c :: rest)) || subList pat rest

/-- Python `pat in s` (substring containment; the empty pattern is always
contained). -/
def strContains (s pat : String) : Bool := pat.data.isEmpty || subList pat.data s.data

/-! ### DataFrames -/

/-- A pandas `DataFrame`: column labels plus rows of cells.  A cell holds
`none` for `NaN`.  Rows are expected to have exactly one cell per column
(`DF.WF`); `pd.read_csv` always yields such rectangular frames. -/
structure DF (α : Type) where
  cols : List String
  rows : List (List (Option α))
  deriving DecidableEq

variable {α : Type} [LinearOrderedField α]

/-- `c in df.columns`. -/
def DF.hasCol (df : DF α) (c : String) : Bool := df.cols.contains c

/-- Position of a column label (first occurrence). -/
def DF.colIdx (df : DF α) (c : String) : Option Nat := df.cols.findIdx? (fun x => x == c)

/-- The cell of row `r` in column `c` of `df`. -/
def DF.getCell (df : DF α) (r : List (Option α)) (c : String) : Option α :=
  match df.colIdx c with
  | some i => (r[i]?).join
  | none => none

/-- `df.rename(columns={old: new})`: every column labelled `old` is
relabelled `new`. -/
def DF.renameCol (df : DF α) (o n : String) : DF α :=
  ⟨df.cols.map (fun c => if c = o then n else c), df.rows⟩

/-- The value of `df[cs]` when no label is missing (the filter is then the
identity on `cs`).  Used directly only at the two sites where the code has
already filtered the labels for membership (the GPS merge, line 134, and
the single-file final selection, line 93), so that `df[cs]` cannot raise
there; the three unguarded selections go through `DF.selectE` below. -/
def DF.select (df : DF α) (cs : List String) : DF α :=
  let kept := cs.filter (fun c => df.hasCol c)
  ⟨kept, df.rows.map (fun r => kept.map (fun c => df.getCell r c))⟩

/-- `df[cs]` proper: pandas raises `KeyError` when any requested label is
absent; `none` models that exception. -/
def DF.selectE (df : DF α) (cs : List String) : Option (DF α) :=
  if cs.all df.hasCol then some (df.select cs) else none

/-- `df.columns = [c.strip().lower() for c in df.columns]`. -/
def DF.normalizeCols (df : DF α) : DF α :=
  ⟨df.cols.map (fun c => strLower (strStrip c)), df.rows⟩

/-- `df.dropna(subset=[c])`; `pd.to_numeric(..., errors='coerce')` is the
identity here because cells already model coercion results (`none` where
coercion failed). -/
def DF.dropnaOn (df : DF α) (c : String) : DF α :=
  ⟨df.cols, df.rows.filter (fun r => (df.getCell r c).isSome)⟩

/-- Order on sort keys; after `dropnaOn` every key is `some _`, the `none`
cases are arbitrary totalisations. -/
def keyLE (a b : Option α) : Bool :=
  match a, b with
  | none, _ => true
  | some _, none => false
  | some x, some y => x ≤ y

/-- Insertion into an ascending list. -/
def insertAsc {β : Type} (le : β → β → Bool) (x : β) : List β → List β
  | [] => [x]
  | y :: ys => if le x y then x :: y :: ys else y :: insertAsc le x ys

/-- Ascending sort (`df.sort_values` only promises an ascending order; tie
order is unspecified there, and no claim depends on it). -/
def sortAsc {β : Type} (le : β → β → Bool) : List β → List β
  | [] => []
  | x :: xs => insertAsc le x (sortAsc le xs)

/-- `df.sort_values(c)`. -/
def DF.sortOn (df : DF α) (c : String) : DF α :=
  ⟨df.cols, sortAsc (fun r s => keyLE (df.getCell r c) (df.getCell s c)) df.rows⟩

/-- `df.fillna(0)`. -/
def DF.fillna0 (df : DF α) : DF α :=
  ⟨df.cols, df.rows.map (fun r => r.map (fun v => some (v.getD 0)))⟩

/-- `df[c] = <col computed row-wise by f>`: overwrite if the label exists,
else append a new last column. -/
def DF.setCol (df : DF α) (c : String) (f : List (Option α) → Option α) : DF α :=
  if df.hasCol c then
    ⟨df.cols, df.rows.map (fun r =>
      match df.colIdx c with
      | some i => r.set i (f r)
      | none => r)⟩
  else ⟨df.cols ++ [c], df.rows.map (fun r => r ++ [f r])⟩

/-- Same, with one prescribed value per row. -/
def DF.setColVals (df : DF α) (c : String) (vals : List (Option α)) : DF α :=
  if df.hasCol c then
    ⟨df.cols, List.zipWith (fun r v =>
      match df.colIdx c with
      | some i => r.set i v
      | none => r) df.rows vals⟩
  else ⟨df.cols ++ [c], List.zipWith (fun r v => r ++ [v]) df.rows vals⟩

/-- Rows are rectangular. -/
def DF.WF (df : DF α) : Prop := ∀ r ∈ df.rows, r.length = df.cols.length

/-! ### `pd.merge_asof(..., on='time', direction='nearest')`

For each left row, the right row whose time is closest to the left row's
time contributes the non-time cells; on equal distances pandas keeps the
earlier (backward) candidate, which for a time-sorted right frame is the
scan-order-first minimiser below.  A left row with no candidate (empty
right frame) gets `NaN` cells. -/

/-- Scan for the candidate minimising the distance to `t`; the first
minimiser in list order wins. -/
def nearestPick (t : α) (cands : List (α × List (Option α))) :
    Option (α × List (Option α)) :=
  cands.foldl (fun best c =>
    match best with
    | none => some c
    | some b => if |c.1 - t| < |b.1 - t| then some c else some b) none

/-- The non-time columns the right frame contributes. -/
def asofCols (r : DF α) : List String := r.cols.filter (fun c => !(c == "time"))

/-- The (time, row) candidates of the right frame. -/
def asofCands (r : DF α) : List (α × List (Option α)) :=
  r.rows.filterMap (fun s => (r.getCell s "time").map (fun ts => (ts, s)))

def mergeAsofNearest (l r : DF α) : DF α :=
  ⟨l.cols ++ asofCols r,
   l.rows.map (fun row =>
     match l.getCell row "time" with
     | some t =>
       match nearestPick t (asofCands r) with
       | some c => row ++ (asofCols r).map (fun col => r.getCell c.2 col)
       | none => row ++ (asofCols r).map (fun _ => (none : Option α))
     | none => row ++ (asofCols r).map (fun _ => (none : Option α)))⟩

/-! ### Channel loading and the batch path (`process_batch_files`) -/

/-- The four fixed-name channel files of a batch directory.  Each slot is
`none` when the file does not exist, `some none` when `pd.read_csv`
raised (swallowed by the bare `except: pass`), and `some (some df)` when
parsing produced `df`. -/
structure BatchInput (α : Type) where
  rpm : Option (Option (DF α))
  gps : Option (Option (DF α))
  steer : Option (Option (DF α))
  gyro : Option (Option (DF α))

/-- One iteration of the loading loop: normalise labels, and keep the
frame only when it has a `time` column, with invalid-time rows dropped and
the rest time-sorted.  A frame that is absent, unparsable, or lacks `time`
never enters `data_frames`; neither does a frame whose normalised labels
contain `time` more than once — `df['time']` is then a two-column frame,
`pd.to_numeric` raises inside the loop's `try`, and the bare
`except: pass` skips the channel. -/
def loadChannel (file : Option (Option (DF α))) : Option (DF α) :=
  match file with
  | none => none
  | some none => none
  | some (some raw) =>
    let df := raw.normalizeCols
    if df.hasCol "time" then
      if df.cols.count "time" = 1 then
        some ((df.dropnaOn "time").sortOn "time")
      else none
    else none

/-- The GPS merge block: pick the first column whose name contains
`'speed'` (default `'speed'`), rename it to `speed`, keep the listed
columns that still exist, and nearest-join onto the master. -/
def addGps (master : DF α) (g : Option (DF α)) : DF α :=
  match g with
  | none => master
  | some g =>
    let speedCol := (g.cols.find? (fun c => strContains c "speed")).getD "speed"
    let gpsCols := ["time", speedCol, "lat", "lon"]
    let g2 := g.renameCol speedCol "speed"
    let gpsCols2 := gpsCols.filter (fun c => g2.hasCol c)
    mergeAsofNearest master (g2.select gpsCols2)

/-- The steering merge block (line 138), selection modelled by `selectE`:
`steer = data_frames['steer'].rename(columns={'value': 'steer'})[['time',
'steer']]` raises `KeyError` when the loaded frame lacks a `steer` label
after the rename — nothing guards or filters this selection. -/
def addSteerE (master : DF α) (s : Option (DF α)) : Option (DF α) :=
  match s with
  | none => some master
  | some s =>
    ((s.renameCol "value" "steer").selectE ["time", "steer"]).map (mergeAsofNearest master)

/-- The gyro merge block (line 142), with the same unguarded selection. -/
def addGyroE (master : DF α) (s : Option (DF α)) : Option (DF α) :=
  match s with
  | none => some master
  | some s =>
    ((s.renameCol "value" "yaw_rate").selectE ["time", "yaw_rate"]).map (mergeAsofNearest master)

/-- The merged master before the physics block: reference RPM columns
(line 125, again an unguarded selection) plus the three optional merges;
`none` is a propagated `KeyError`. -/
def masterMergedE (inp : BatchInput α) (rdf : DF α) : Option (DF α) :=
  ((rdf.renameCol "value" "rpm").selectE ["time", "rpm"]).bind fun m0 =>
    (addSteerE (addGps m0 (loadChannel inp.gps)) (loadChannel inp.steer)).bind fun m1 =>
      addGyroE m1 (loadChannel inp.gyro)

/-- The value `addSteerE` produces when its selection does not raise. -/
def addSteer (master : DF α) (s : Option (DF α)) : DF α :=
  match s with
  | none => master
  | some s => mergeAsofNearest master ((s.renameCol "value" "steer").select ["time", "steer"])

/-- The value `addGyroE` produces when its selection does not raise. -/
def addGyro (master : DF α) (s : Option (DF α)) : DF α :=
  match s with
  | none => master
  | some s => mergeAsofNearest master ((s.renameCol "value" "yaw_rate").select ["time", "yaw_rate"])

/-- The value `masterMergedE` produces when none of the selections raises
(proved below as `masterMergedE_some`). -/
def masterMerged (inp : BatchInput α) (rdf : DF α) : DF α :=
  addGyro
    (addSteer
      (addGps ((rdf.renameCol "value" "rpm").select ["time", "rpm"]) (loadChannel inp.gps))
      (loadChannel inp.steer))
    (loadChannel inp.gyro)

/-- The physics block of `process_batch_files`: gap fill, speed unit
conversion, lateral g, and the constant batch-mode lap column.  `piV` is
the value of `np.pi` (the claims instantiate it with `Real.pi`);
`np.radians x = x * pi / 180`, and the float literals `2.237` and `9.81`
are taken at their decimal value. -/
def physicsDerive (piV : α) (m : DF α) : DF α :=
  let m1 := m.fillna0
  let m2 := if m1.hasCol "speed" then
      m1.setCol "speed_mph" (fun r => (m1.getCell r "speed").map (fun s => s * (2237/1000)))
    else m1
  let m3 := if m2.hasCol "yaw_rate" && m2.hasCol "speed" then
      m2.setCol "lat_g" (fun r =>
        match m2.getCell r "speed", m2.getCell r "yaw_rate" with
        | some s, some y => some (s * (y * piV / 180) / (981/100) * (-1))
        | _, _ => none)
    else m2
  m3.setCol "lap" (fun _ => some 0)

/-- `process_batch_files`.  The outer `Option` separates an uncaught
exception from a returned pair: `none` is the `KeyError` a missing label
raises out of the unguarded selections at lines 125/138/142 (nothing in
`process_batch_files`, `load_and_stitch_from_folder` or the caller catches
it), `some (none, msg)` is the returned failure and `some (some df, msg)`
a returned success. -/
def processBatchFiles (piV : α) (inp : BatchInput α) :
    Option (Option (DF α) × String) :=
  match loadChannel inp.rpm with
  | none => some (none, "RPM file missing.")
  | some rdf =>
    (masterMergedE inp rdf).map fun m =>
      (some (physicsDerive piV m), "Success (Batch)")

/-- The table of a batch outcome, when one was returned. -/
def batchTable (res : Option (Option (DF α) × String)) : DF α :=
  ((res.getD (none, "")).1).getD (DF.mk [] [])

/-! ### Lap assignment and the single-file path (`process_single_file`) -/

/-- One iteration of the beacon loop, on the state
(lap column, `start_t`, `current_lap`): rows with
`start_t <= Time < marker` get `current_lap`; a `NaN` time never satisfies
the mask (Python comparisons with `NaN` are false). -/
def lapStep (times : List (Option α)) (st : List Nat × α × Nat) (m : α) :
    List Nat × α × Nat :=
  (List.zipWith (fun t l =>
      match t with
      | some tv => if st.2.1 ≤ tv ∧ tv < m then st.2.2 else l
      | none => l) times st.1,
   m, st.2.2 + 1)

/-- The full beacon loop starting from the default lap column of ones,
`start_t = 0.0`, `current_lap = 1`. -/
def assignLapsFold (times : List (Option α)) (markers : List α) :
    List Nat × α × Nat :=
  markers.foldl (lapStep times) (times.map (fun _ => 1), 0, 1)

/-- The lap column produced by lines 69–78 of the stitcher. -/
def assignLaps (times : List (Option α)) (markers : List α) : List Nat :=
  (assignLapsFold times markers).1

/-- Per-row view of one beacon iteration: the same state transition as
`lapStep`, projected to a single row with time cell `t`. -/
def lapPointStep (t : Option α) (st : ℕ × α × ℕ) (m : α) : ℕ × α × ℕ :=
  (match t with
   | some tv => if st.2.1 ≤ tv ∧ tv < m then st.2.2 else st.1
   | none => st.1,
   m, st.2.2 + 1)

/-- Per-row view of the whole beacon loop. -/
def lapPointFold (t : Option α) (markers : List α) (st : ℕ × α × ℕ) : ℕ × α × ℕ :=
  markers.foldl (lapPointStep t) st

/-- `c.strip().replace('"', '')`, the single-file column clean-up. -/
def cleanColName (c : String) : String := stripQuotes (strStrip c)

/-- The single-file `rename_map`. -/
def renameMapSF (c : String) : String :=
  if c = "RPM" then "rpm"
  else if c = "GPS Speed" then "speed_mph"
  else if c = "Steering Angle" then "steer"
  else if c = "GPS LatAcc" then "lat_g"
  else if c = "GPS LonAcc" then "long_g"
  else c

/-- `process_single_file` after parsing: `raw` is the frame `pd.read_csv`
produced (its first row is the units row, dropped by `df.drop(0)`) and
`markers` the beacon floats scraped from the metadata.  Numeric coercion
is the identity on cells, as for the batch loader. -/
def processSingleFile (raw : DF α) (markers : List α) : Option (DF α) × String :=
  let df : DF α := ⟨raw.cols, raw.rows.drop 1⟩
  let df : DF α := ⟨df.cols.map cleanColName, df.rows⟩
  let times := df.rows.map (fun r => df.getCell r "Time")
  let df := df.setColVals "lap" ((assignLaps times markers).map (fun l => some ((l : Nat) : α)))
  let df : DF α := ⟨df.cols.map renameMapSF, df.rows⟩
  let finalCols := (["Time", "lap", "rpm", "speed_mph", "steer", "lat_g", "long_g"]).filter
    (fun c => df.hasCol c)
  (some (df.select finalCols), "Success (Single File)")

/-! ### Format detection and the orchestrator (`load_and_stitch_from_folder`) -/

/-- `'"Time"' in line and '"GPS Speed"' in line`. -/
def matchLine (l : String) : Bool :=
  strContains l "\"Time\"" && strContains l "\"GPS Speed\""

/-- Index of the header line among the at most 20 lines the peek read
(`readline` past EOF yields `''`, which never matches, so reading exactly
20 lines equals taking at most the first 20). -/
def findHeaderIdx (lines : List String) : Option Nat :=
  (lines.take 20).findIdx? matchLine

/-- The detection scan: each file is `none` when opening/reading it raised
(the `except: continue` skips it) and `some lines` otherwise.  The first
file with a matching line wins, together with the matched line index. -/
def detectFormat : List (Option (List String)) → Option (Nat × Nat)
  | [] => none
  | f :: rest =>
    match f with
    | none => (detectFormat rest).map (fun p => (p.1 + 1, p.2))
    | some lines =>
      match findHeaderIdx lines with
      | some i => some (0, i)
      | none => (detectFormat rest).map (fun p => (p.1 + 1, p.2))

/-- The orchestrator's dispatch: either `process_single_file(f, header_idx)`
on the detected file, or the batch result.  Single-file parsing proper is
modelled by `processSingleFile`; the outcome here records which file and
header offset the detector handed over. -/
inductive StitchOutcome (α : Type) where
  | single (fileIdx headerIdx : Nat)
  | batch (res : Option (Option (DF α) × String))

/-- `load_and_stitch_from_folder`. -/
def loadAndStitchFromFolder (piV : α) (files : List (Option (List String)))
    (inp : BatchInput α) : StitchOutcome α :=
  match detectFormat files with
  | some p => .single p.1 p.2
  | none => .batch (processBatchFiles piV inp)

/-! ### Concrete channel frames used as verification inputs -/

/-- A one-row RPM channel file. -/
def wRpm : DF α := ⟨["time", "value"], [[some 0, some 100]]⟩

/-- A one-row GPS channel file with a literal `speed` column. -/
def wGps : DF α := ⟨["time", "speed", "lat", "lon"], [[some 0, some 10, some 1, some 2]]⟩

/-- A one-row gyro channel file. -/
def wGyro : DF α := ⟨["time", "value"], [[some 0, some 3]]⟩

/-- A steering file whose only timestamp failed numeric coercion. -/
def wSteerNaN : DF α := ⟨["time", "value"], [[none, some 5]]⟩

/-- RPM + GPS + gyro (the lateral-g configuration). -/
def wInpR : BatchInput α := ⟨some (some wRpm), some (some wGps), none, some (some wGyro)⟩

/-- RPM only. -/
def wInpQ1 : BatchInput ℚ := ⟨some (some wRpm), none, none, none⟩

/-- RPM plus a steering file that loads as an empty series. -/
def wInpQ2 : BatchInput ℚ := ⟨some (some wRpm), none, some (some wSteerNaN), none⟩

/-! ## Toolkit lemmas about `List.findIdx?` -/

lemma findIdx?_append_some {β : Type} (p : β → Bool) :
    ∀ (l₁ : List β) (s i : ℕ), List.findIdx? p l₁ s = some i →
      ∀ (l₂ : List β), List.findIdx? p (l₁ ++ l₂) s = some i := by
  intro l₁
  induction l₁ with
  | nil => intro s i h; simp at h
  | cons a l ih =>
    intro s i h l₂
    rw [List.cons_append, List.findIdx?_cons]
    rw [List.findIdx?_cons] at h
    by_cases hp : p a
    · simpa [hp] using h
    · simp only [hp, if_false] at h ⊢
      exact ih _ _ h _

lemma findIdx?_append_none {β : Type} (p : β → Bool) :
    ∀ (l₁ : List β) (s : ℕ), List.findIdx? p l₁ s = none →
      ∀ (l₂ : List β), List.findIdx? p (l₁ ++ l₂) s = List.findIdx? p l₂ (s + l₁.length) := by
  intro l₁
  induction l₁ with
  | nil => intro s _ l₂; simp
  | cons a l ih =>
    intro s h l₂
    rw [List.findIdx?_cons] at h
    by_cases hp : p a = true
    · rw [if_pos hp] at h; exact absurd h (by simp)
    · rw [if_neg hp] at h
      rw [List.cons_append, List.findIdx?_cons, if_neg hp]
      have hlen : s + (a :: l).length = (s + 1) + l.length := by
        simp only [List.length_cons]
        omega
      rw [ih _ h, hlen]

lemma findIdx?_bounds {β : Type} (p : β → Bool) :
    ∀ (l : List β) (s i : ℕ), List.findIdx? p l s = some i → s ≤ i ∧ i < s + l.length := by
  intro l
  induction l with
  | nil => intro s i h; simp at h
  | cons a l ih =>
    intro s i h
    rw [List.findIdx?_cons] at h
    by_cases hp : p a = true
    · rw [if_pos hp] at h
      obtain rfl : s = i := Option.some.inj h
      simp only [List.length_cons]
      omega
    · rw [if_neg hp] at h
      have := ih _ _ h
      simp only [List.length_cons]
      omega

lemma findIdx?_found {β : Type} (p : β → Bool) :
    ∀ (l : List β) (s i : ℕ), List.findIdx? p l s = some i →
      ∃ x, l[i - s]? = some x ∧ p x = true := by
  intro l
  induction l with
  | nil => intro s i h; simp at h
  | cons a l ih =>
    intro s i h
    rw [List.findIdx?_cons] at h
    by_cases hp : p a = true
    · rw [if_pos hp] at h
      obtain rfl : s = i := Option.some.inj h
      exact ⟨a, by simp, hp⟩
    · rw [if_neg hp] at h
      obtain ⟨x, hx, hpx⟩ := ih _ _ h
      have hb := findIdx?_bounds p l _ _ h
      refine ⟨x, ?_, hpx⟩
      have hsub : i - s = (i - (s + 1)) + 1 := by omega
      rw [hsub]
      simpa using hx

lemma findIdx?_min {β : Type} (p : β → Bool) :
    ∀ (l : List β) (s i : ℕ), List.findIdx? p l s = some i →
      ∀ j, s ≤ j → j < i → ∀ y, l[j - s]? = some y → p y = false := by
  intro l
  induction l with
  | nil => intro s i h; simp at h
  | cons a l ih =>
    intro s i h j hsj hji y hy
    rw [List.findIdx?_cons] at h
    by_cases hp : p a = true
    · rw [if_pos hp] at h
      obtain rfl : s = i := Option.some.inj h
      omega
    · rw [if_neg hp] at h
      rcases Nat.eq_or_lt_of_le hsj with rfl | hlt
      · simp only [Nat.sub_self] at hy
        simp only [List.getElem?_cons_zero] at hy
        obtain rfl : a = y := Option.some.inj hy
        simpa using hp
      · have hsub : j - s = (j - (s + 1)) + 1 := by omega
        rw [hsub] at hy
        simp only [List.getElem?_cons_succ] at hy
        exact ih _ _ h j (by omega) hji y hy

lemma findIdx?_none_forall {β : Type} (p : β → Bool) :
    ∀ (l : List β) (s : ℕ), List.findIdx? p l s = none → ∀ x ∈ l, p x = false := by
  intro l
  induction l with
  | nil => intro s _ x hx; simp at hx
  | cons a l ih =>
    intro s h x hx
    rw [List.findIdx?_cons] at h
    by_cases hp : p a = true
    · rw [if_pos hp] at h; exact absurd h (by simp)
    · rw [if_neg hp] at h
      rcases List.mem_cons.mp hx with rfl | hx
      · simpa using hp
      · exact ih _ h x hx

lemma findIdx?_shift {β : Type} (p : β → Bool) :
    ∀ (l : List β) (s : ℕ), List.findIdx? p l s = (List.findIdx? p l 0).map (· + s) := by
  intro l
  induction l with
  | nil => intro s; simp
  | cons a l ih =>
    intro s
    rw [List.findIdx?_cons, List.findIdx?_cons]
    by_cases hp : p a = true
    · rw [if_pos hp, if_pos hp]; simp
    · rw [if_neg hp, if_neg hp, ih (s + 1), ih 1]
      cases List.findIdx? p l 0 with
      | none => simp
      | some k =>
        simp only [Option.map]
        congr 1
        omega

lemma findIdx?_isSome_iff_mem {β : Type} [BEq β] [LawfulBEq β] (c : β) :
    ∀ (l : List β), (List.findIdx? (fun x => x == c) l 0).isSome ↔ c ∈ l := by
  intro l
  induction l with
  | nil => simp
  | cons a l ih =>
    rw [List.findIdx?_cons]
    by_cases hp : (a == c) = true
    · rw [if_pos hp]
      have ha : a = c := by simpa using hp
      simp [ha]
    · rw [if_neg hp]
      have ha : a ≠ c := by simpa using hp
      rw [findIdx?_shift]
      have hiso : ((List.findIdx? (fun x => x == c) l 0).map (· + 1)).isSome
          = (List.findIdx? (fun x => x == c) l 0).isSome := by
        cases List.findIdx? (fun x => x == c) l 0 <;> rfl
      rw [hiso, ih]
      simp [List.mem_cons, Ne.symm ha]

/-! ## Basic `DF` lemmas -/

section DFLemmas
variable {α : Type} [LinearOrderedField α]

lemma hasCol_iff_mem (df : DF α) (c : String) : df.hasCol c = true ↔ c ∈ df.cols := by
  simp [DF.hasCol, List.contains_iff_exists_mem_beq, eq_comm]

lemma colIdx_isSome_iff (df : DF α) (c : String) : (df.colIdx c).isSome ↔ c ∈ df.cols :=
  findIdx?_isSome_iff_mem c df.cols

lemma colIdx_lt (df : DF α) (c : String) {i : ℕ} (h : df.colIdx c = some i) :
    i < df.cols.length := by
  have := findIdx?_bounds _ _ _ _ h
  omega

lemma getCell_of_colIdx (df : DF α) (r : List (Option α)) (c : String) (i : ℕ)
    (h : df.colIdx c = some i) : df.getCell r c = (r[i]?).join := by
  unfold DF.getCell
  rw [h]

lemma getCell_of_colIdx_none (df : DF α) (r : List (Option α)) (c : String)
    (h : df.colIdx c = none) : df.getCell r c = none := by
  unfold DF.getCell
  rw [h]

lemma colIdx_not_mem (df : DF α) (c : String) (h : c ∉ df.cols) : df.colIdx c = none := by
  by_contra hc
  exact h ((colIdx_isSome_iff df c).mp (Option.isSome_iff_ne_none.mpr hc))

/-- A column present in the left block of an appended header keeps its cell. -/
lemma getCell_append_left (cols₁ cols₂ : List String) (rs rs' : List (List (Option α)))
    (r tl : List (Option α)) (c : String)
    (hmem : c ∈ cols₁) (hr : r.length = cols₁.length) :
    (DF.mk (cols₁ ++ cols₂) rs).getCell (r ++ tl) c = (DF.mk cols₁ rs').getCell r c := by
  obtain ⟨i, hi⟩ := Option.isSome_iff_exists.mp
    ((colIdx_isSome_iff (DF.mk cols₁ rs') c).mpr hmem)
  have hlt : i < cols₁.length := colIdx_lt (DF.mk cols₁ rs') c hi
  have hi2 : (DF.mk (cols₁ ++ cols₂) rs : DF α).colIdx c = some i := by
    unfold DF.colIdx at hi ⊢
    exact findIdx?_append_some _ _ _ _ hi _
  rw [getCell_of_colIdx _ _ _ _ hi2, getCell_of_colIdx _ _ _ _ hi]
  rw [List.getElem?_append]
  rw [if_pos (by omega : i < r.length)]

/-- A column absent from the left block reads from the appended tail. -/
lemma getCell_append_right (cols₁ cols₂ : List String) (rs rs' : List (List (Option α)))
    (r tl : List (Option α)) (c : String)
    (hmem : c ∉ cols₁) (hr : r.length = cols₁.length) :
    (DF.mk (cols₁ ++ cols₂) rs).getCell (r ++ tl) c = (DF.mk cols₂ rs').getCell tl c := by
  have hnone : List.findIdx? (fun x => x == c) cols₁ 0 = none :=
    colIdx_not_mem (DF.mk cols₁ rs') c hmem
  have happ : (DF.mk (cols₁ ++ cols₂) rs : DF α).colIdx c =
      (List.findIdx? (fun x => x == c) cols₂ 0).map (· + cols₁.length) := by
    unfold DF.colIdx
    rw [findIdx?_append_none _ _ _ hnone, findIdx?_shift]
    simp
  cases h2 : List.findIdx? (fun x => x == c) cols₂ 0 with
  | none =>
    rw [getCell_of_colIdx_none _ _ _ (by rw [happ, h2]; rfl),
        getCell_of_colIdx_none _ _ _ (by unfold DF.colIdx; exact h2)]
  | some i =>
    rw [getCell_of_colIdx _ _ _ (i + cols₁.length) (by rw [happ, h2]; rfl),
        getCell_of_colIdx _ _ _ i (by unfold DF.colIdx; exact h2)]
    rw [List.getElem?_append_right (by omega)]
    congr 2
    omega

lemma select_cols (df : DF α) (cs : List String) :
    (df.select cs).cols = cs.filter (fun c => df.hasCol c) := rfl

lemma select_rows_length (df : DF α) (cs : List String) :
    (df.select cs).rows.length = df.rows.length := by
  simp [DF.select]

lemma select_WF (df : DF α) (cs : List String) : (df.select cs).WF := by
  intro r hr
  simp only [DF.select, List.mem_map] at hr
  obtain ⟨r₀, _, rfl⟩ := hr
  simp [DF.select]

lemma renameCol_rows (df : DF α) (o n : String) : (df.renameCol o n).rows = df.rows := rfl

lemma fillna0_cols (df : DF α) : df.fillna0.cols = df.cols := rfl

lemma fillna0_rows_length (df : DF α) : df.fillna0.rows.length = df.rows.length := by
  simp [DF.fillna0]

lemma fillna0_WF (df : DF α) (h : df.WF) : df.fillna0.WF := by
  intro r hr
  simp only [DF.fillna0, List.mem_map] at hr
  obtain ⟨r₀, hr₀, rfl⟩ := hr
  simpa using h r₀ hr₀

lemma mergeAsof_cols (l r : DF α) :
    (mergeAsofNearest l r).cols = l.cols ++ asofCols r := rfl

lemma mergeAsof_rows_length (l r : DF α) :
    (mergeAsofNearest l r).rows.length = l.rows.length := by
  simp [mergeAsofNearest]

lemma mergeAsof_WF (l r : DF α) (h : l.WF) : (mergeAsofNearest l r).WF := by
  intro row hrow
  simp only [mergeAsofNearest, List.mem_map] at hrow
  obtain ⟨r₀, hr₀, rfl⟩ := hrow
  have hlen := h r₀ hr₀
  cases hl : l.getCell r₀ "time" with
  | none => simp [mergeAsofNearest, hl, hlen]
  | some t =>
    cases hn : nearestPick t (asofCands r) with
    | none => simp [mergeAsofNearest, hl, hn, hlen]
    | some c => simp [mergeAsofNearest, hl, hn, hlen]

lemma setCol_rows_length (df : DF α) (c : String) (f : List (Option α) → Option α) :
    (df.setCol c f).rows.length = df.rows.length := by
  unfold DF.setCol
  split <;> simp

lemma setCol_cols_of_not (df : DF α) (c : String) (f : List (Option α) → Option α)
    (h : c ∉ df.cols) : (df.setCol c f).cols = df.cols ++ [c] := by
  have : df.hasCol c = false := by
    rw [← Bool.not_eq_true, hasCol_iff_mem]; exact h
  simp [DF.setCol, this]

lemma setCol_cols_mem (df : DF α) (c : String) (f : List (Option α) → Option α)
    (x : String) (h : x ∈ (df.setCol c f).cols) : x ∈ df.cols ∨ x = c := by
  unfold DF.setCol at h
  split at h
  · exact Or.inl h
  · simp only [List.mem_append, List.mem_singleton] at h
    exact h

lemma setCol_WF (df : DF α) (c : String) (f : List (Option α) → Option α)
    (h : df.WF) : (df.setCol c f).WF := by
  unfold DF.setCol
  split
  · intro r hr
    simp only [List.mem_map] at hr
    obtain ⟨r₀, hr₀, rfl⟩ := hr
    cases hidx : df.colIdx c with
    | none => simpa [hidx] using h r₀ hr₀
    | some i => simpa [hidx] using h r₀ hr₀
  · intro r hr
    simp only [List.mem_map] at hr
    obtain ⟨r₀, hr₀, rfl⟩ := hr
    simpa using h r₀ hr₀

lemma length_insertAsc {β : Type} (le : β → β → Bool) (x : β) :
    ∀ (l : List β), (insertAsc le x l).length = l.length + 1 := by
  intro l
  induction l with
  | nil => rfl
  | cons y ys ih =>
    unfold insertAsc
    split <;> simp [ih]

lemma length_sortAsc {β : Type} (le : β → β → Bool) :
    ∀ (l : List β), (sortAsc le l).length = l.length := by
  intro l
  induction l with
  | nil => rfl
  | cons x xs ih => simp [sortAsc, length_insertAsc, ih]

lemma sortOn_cols (df : DF α) (c : String) : (df.sortOn c).cols = df.cols := rfl

lemma sortOn_rows_length (df : DF α) (c : String) :
    (df.sortOn c).rows.length = df.rows.length := by
  simp [DF.sortOn, length_sortAsc]

lemma dropnaOn_cols (df : DF α) (c : String) : (df.dropnaOn c).cols = df.cols := rfl

lemma setCol_eq_of_not (df : DF α) (c : String) (f : List (Option α) → Option α)
    (h : c ∉ df.cols) :
    df.setCol c f = DF.mk (df.cols ++ [c]) (df.rows.map (fun r => r ++ [f r])) := by
  have hc : ¬ df.hasCol c = true := by
    rw [hasCol_iff_mem]; exact h
  unfold DF.setCol
  rw [if_neg hc]

lemma iteSetCol_cols_mem (P : Prop) [Decidable P] (df : DF α) (c : String)
    (f : List (Option α) → Option α) (x : String)
    (h : x ∈ (if P then df.setCol c f else df).cols) : x ∈ df.cols ∨ x = c := by
  by_cases hP : P
  · rw [if_pos hP] at h
    exact setCol_cols_mem df c f x h
  · rw [if_neg hP] at h
    exact Or.inl h

lemma iteSetCol_WF (P : Prop) [Decidable P] (df : DF α) (c : String)
    (f : List (Option α) → Option α) (h : df.WF) :
    (if P then df.setCol c f else df).WF := by
  by_cases hP : P
  · rw [if_pos hP]; exact setCol_WF df c f h
  · rw [if_neg hP]; exact h

lemma iteSetCol_rows_length (P : Prop) [Decidable P] (df : DF α) (c : String)
    (f : List (Option α) → Option α) :
    (if P then df.setCol c f else df).rows.length = df.rows.length := by
  by_cases hP : P
  · rw [if_pos hP]; exact setCol_rows_length df c f
  · rw [if_neg hP]

/-! ## Column tracking through the batch pipeline -/

lemma asofCols_sub (r : DF α) : ∀ x ∈ asofCols r, x ∈ r.cols ∧ x ≠ "time" := by
  intro x hx
  simp only [asofCols, List.mem_filter] at hx
  refine ⟨hx.1, ?_⟩
  simpa using hx.2

lemma select_cols_sub (df : DF α) (cs : List String) :
    ∀ x ∈ (df.select cs).cols, x ∈ cs ∧ x ∈ df.cols := by
  intro x hx
  simp only [select_cols, List.mem_filter] at hx
  exact ⟨hx.1, (hasCol_iff_mem df x).mp hx.2⟩

lemma addGps_cols_sub (m : DF α) (g : Option (DF α)) :
    ∀ x ∈ (addGps m g).cols, x ∈ m.cols ∨ x ∈ ["speed", "lat", "lon"] := by
  intro x hx
  cases g with
  | none => exact Or.inl hx
  | some g =>
    simp only [addGps, mergeAsof_cols, List.mem_append] at hx
    rcases hx with hx | hx
    · exact Or.inl hx
    · right
      obtain ⟨hsel, hnt⟩ := asofCols_sub _ x hx
      obtain ⟨hin, hcols⟩ := select_cols_sub _ _ x hsel
      set speedCol := (g.cols.find? (fun c => strContains c "speed")).getD "speed" with hsc
      simp only [List.mem_filter] at hin
      have hin2 : x ∈ ["time", speedCol, "lat", "lon"] := hin.1
      simp only [List.mem_cons, List.not_mem_nil, or_false] at hin2
      rcases hin2 with rfl | hxs | rfl | rfl
      · exact absurd rfl hnt
      · -- x is the original speed-column name; it survives the rename only
        -- when that name is literally "speed"
        subst hxs
        simp only [DF.renameCol, List.mem_map] at hcols
        obtain ⟨c₀, _, hc₀⟩ := hcols
        by_cases hceq : c₀ = speedCol
        · rw [if_pos hceq] at hc₀
          simp [← hc₀]
        · rw [if_neg hceq] at hc₀
          exact absurd hc₀ hceq
      · simp
      · simp

lemma addSteer_cols_sub (m : DF α) (s : Option (DF α)) :
    ∀ x ∈ (addSteer m s).cols, x ∈ m.cols ∨ x = "steer" := by
  intro x hx
  cases s with
  | none => exact Or.inl hx
  | some s =>
    simp only [addSteer, mergeAsof_cols, List.mem_append] at hx
    rcases hx with hx | hx
    · exact Or.inl hx
    · right
      obtain ⟨hsel, hnt⟩ := asofCols_sub _ x hx
      obtain ⟨hin, _⟩ := select_cols_sub _ _ x hsel
      simp only [List.mem_cons, List.not_mem_nil, or_false] at hin
      rcases hin with rfl | rfl
      · exact absurd rfl hnt
      · rfl

lemma addGyro_cols_sub (m : DF α) (s : Option (DF α)) :
    ∀ x ∈ (addGyro m s).cols, x ∈ m.cols ∨ x = "yaw_rate" := by
  intro x hx
  cases s with
  | none => exact Or.inl hx
  | some s =>
    simp only [addGyro, mergeAsof_cols, List.mem_append] at hx
    rcases hx with hx | hx
    · exact Or.inl hx
    · right
      obtain ⟨hsel, hnt⟩ := asofCols_sub _ x hx
      obtain ⟨hin, _⟩ := select_cols_sub _ _ x hsel
      simp only [List.mem_cons, List.not_mem_nil, or_false] at hin
      rcases hin with rfl | rfl
      · exact absurd rfl hnt
      · rfl

/-- Every column of the merged master is one of the seven the merge can
produce. -/
lemma masterMerged_cols_sub (inp : BatchInput α) (rdf : DF α) :
    ∀ x ∈ (masterMerged inp rdf).cols,
      x ∈ ["time", "rpm", "speed", "lat", "lon", "steer", "yaw_rate"] := by
  intro x hx
  unfold masterMerged at hx
  rcases addGyro_cols_sub _ _ x hx with hx | rfl
  · rcases addSteer_cols_sub _ _ x hx with hx | rfl
    · rcases addGps_cols_sub _ _ x hx with hx | hx
      · obtain ⟨hin, _⟩ := select_cols_sub _ _ x hx
        simp only [List.mem_cons, List.not_mem_nil, or_false] at hin
        rcases hin with rfl | rfl <;> simp
      · simp only [List.mem_cons, List.not_mem_nil, or_false] at hx
        rcases hx with rfl | rfl | rfl <;> simp
    · simp
  · simp

lemma physicsDerive_cols_sub (piV : α) (m : DF α) :
    ∀ x ∈ (physicsDerive piV m).cols, x ∈ m.cols ∨ x ∈ ["speed_mph", "lat_g", "lap"] := by
  intro x hx
  simp only [physicsDerive] at hx
  rcases setCol_cols_mem _ _ _ x hx with hx | rfl
  · rcases iteSetCol_cols_mem _ _ _ _ x hx with hx | rfl
    · rcases iteSetCol_cols_mem _ _ _ _ x hx with hx | rfl
      · exact Or.inl hx
      · simp
    · simp
  · simp

lemma masterMerged_WF (inp : BatchInput α) (rdf : DF α) : (masterMerged inp rdf).WF := by
  unfold masterMerged addGyro addSteer addGps
  have h0 : ((rdf.renameCol "value" "rpm").select ["time", "rpm"]).WF := select_WF _ _
  cases loadChannel inp.gps with
  | none =>
    cases loadChannel inp.steer with
    | none =>
      cases loadChannel inp.gyro with
      | none => exact h0
      | some gy => exact mergeAsof_WF _ _ h0
    | some st =>
      cases loadChannel inp.gyro with
      | none => exact mergeAsof_WF _ _ h0
      | some gy => exact mergeAsof_WF _ _ (mergeAsof_WF _ _ h0)
  | some g =>
    cases loadChannel inp.steer with
    | none =>
      cases loadChannel inp.gyro with
      | none => exact mergeAsof_WF _ _ h0
      | some gy => exact mergeAsof_WF _ _ (mergeAsof_WF _ _ h0)
    | some st =>
      cases loadChannel inp.gyro with
      | none => exact mergeAsof_WF _ _ (mergeAsof_WF _ _ h0)
      | some gy => exact mergeAsof_WF _ _ (mergeAsof_WF _ _ (mergeAsof_WF _ _ h0))

lemma masterMerged_rows_length (inp : BatchInput α) (rdf : DF α) :
    (masterMerged inp rdf).rows.length = rdf.rows.length := by
  unfold masterMerged addGyro addSteer addGps
  cases loadChannel inp.gps with
  | none =>
    cases loadChannel inp.steer with
    | none =>
      cases loadChannel inp.gyro with
      | none => simp [select_rows_length, renameCol_rows, DF.renameCol]
      | some gy => simp [mergeAsof_rows_length, select_rows_length, DF.renameCol]
    | some st =>
      cases loadChannel inp.gyro with
      | none => simp [mergeAsof_rows_length, select_rows_length, DF.renameCol]
      | some gy => simp [mergeAsof_rows_length, select_rows_length, DF.renameCol]
  | some g =>
    cases loadChannel inp.steer with
    | none =>
      cases loadChannel inp.gyro with
      | none => simp [mergeAsof_rows_length, select_rows_length, DF.renameCol]
      | some gy => simp [mergeAsof_rows_length, select_rows_length, DF.renameCol]
    | some st =>
      cases loadChannel inp.gyro with
      | none => simp [mergeAsof_rows_length, select_rows_length, DF.renameCol]
      | some gy => simp [mergeAsof_rows_length, select_rows_length, DF.renameCol]

lemma physicsDerive_rows_length (piV : α) (m : DF α) :
    (physicsDerive piV m).rows.length = m.rows.length := by
  simp only [physicsDerive]
  rw [setCol_rows_length, iteSetCol_rows_length, iteSetCol_rows_length,
    fillna0_rows_length]

lemma physicsDerive_WF (piV : α) (m : DF α) (h : m.WF) : (physicsDerive piV m).WF := by
  simp only [physicsDerive]
  exact setCol_WF _ _ _ (iteSetCol_WF _ _ _ _ (iteSetCol_WF _ _ _ _ (fillna0_WF _ h)))

/-! ## Outcome characterisation of `processBatchFiles` -/

lemma addSteerE_some (master m : DF α) (s : Option (DF α))
    (h : addSteerE master s = some m) : m = addSteer master s := by
  cases s with
  | none =>
    replace h : some master = some m := h
    exact (Option.some.inj h).symm
  | some sdf =>
    replace h : ((sdf.renameCol "value" "steer").selectE ["time", "steer"]).map
        (mergeAsofNearest master) = some m := h
    by_cases hall : (["time", "steer"].all (sdf.renameCol "value" "steer").hasCol) = true
    · rw [DF.selectE, if_pos hall] at h
      replace h : some (mergeAsofNearest master
          ((sdf.renameCol "value" "steer").select ["time", "steer"])) = some m := h
      exact (Option.some.inj h).symm
    · rw [DF.selectE, if_neg hall] at h
      cases h

lemma addGyroE_some (master m : DF α) (s : Option (DF α))
    (h : addGyroE master s = some m) : m = addGyro master s := by
  cases s with
  | none =>
    replace h : some master = some m := h
    exact (Option.some.inj h).symm
  | some sdf =>
    replace h : ((sdf.renameCol "value" "yaw_rate").selectE ["time", "yaw_rate"]).map
        (mergeAsofNearest master) = some m := h
    by_cases hall : (["time", "yaw_rate"].all (sdf.renameCol "value" "yaw_rate").hasCol) = true
    · rw [DF.selectE, if_pos hall] at h
      replace h : some (mergeAsofNearest master
          ((sdf.renameCol "value" "yaw_rate").select ["time", "yaw_rate"])) = some m := h
      exact (Option.some.inj h).symm
    · rw [DF.selectE, if_neg hall] at h
      cases h

/-- When the unguarded selections do not raise, the monadic merge produces
exactly the total merged master. -/
lemma masterMergedE_some (inp : BatchInput α) (rdf m : DF α)
    (h : masterMergedE inp rdf = some m) : m = masterMerged inp rdf := by
  unfold masterMergedE at h
  by_cases hall : (["time", "rpm"].all (rdf.renameCol "value" "rpm").hasCol) = true
  · rw [DF.selectE, if_pos hall] at h
    replace h : (addSteerE
        (addGps ((rdf.renameCol "value" "rpm").select ["time", "rpm"]) (loadChannel inp.gps))
        (loadChannel inp.steer)).bind
        (fun m1 => addGyroE m1 (loadChannel inp.gyro)) = some m := h
    cases hs : addSteerE
        (addGps ((rdf.renameCol "value" "rpm").select ["time", "rpm"]) (loadChannel inp.gps))
        (loadChannel inp.steer) with
    | none => rw [hs] at h; cases h
    | some m1 =>
      rw [hs] at h
      replace h : addGyroE m1 (loadChannel inp.gyro) = some m := h
      rw [addGyroE_some m1 m _ h, addSteerE_some _ m1 _ hs]
      rfl
  · rw [DF.selectE, if_neg hall] at h
    cases h

lemma addSteerE_ok (master : DF α) (s : Option (DF α))
    (h : ∀ sdf, s = some sdf →
      (["time", "steer"].all (sdf.renameCol "value" "steer").hasCol) = true) :
    addSteerE master s = some (addSteer master s) := by
  cases s with
  | none => rfl
  | some sdf =>
    show ((sdf.renameCol "value" "steer").selectE ["time", "steer"]).map
        (mergeAsofNearest master) = _
    rw [DF.selectE, if_pos (h sdf rfl)]
    rfl

lemma addGyroE_ok (master : DF α) (s : Option (DF α))
    (h : ∀ gdf, s = some gdf →
      (["time", "yaw_rate"].all (gdf.renameCol "value" "yaw_rate").hasCol) = true) :
    addGyroE master s = some (addGyro master s) := by
  cases s with
  | none => rfl
  | some gdf =>
    show ((gdf.renameCol "value" "yaw_rate").selectE ["time", "yaw_rate"]).map
        (mergeAsofNearest master) = _
    rw [DF.selectE, if_pos (h gdf rfl)]
    rfl

/-- When every unguarded selection finds its labels, no `KeyError` is
raised and the merge completes. -/
lemma masterMergedE_ok (inp : BatchInput α) (rdf : DF α)
    (h1 : (["time", "rpm"].all (rdf.renameCol "value" "rpm").hasCol) = true)
    (h2 : ∀ sdf, loadChannel inp.steer = some sdf →
      (["time", "steer"].all (sdf.renameCol "value" "steer").hasCol) = true)
    (h3 : ∀ gdf, loadChannel inp.gyro = some gdf →
      (["time", "yaw_rate"].all (gdf.renameCol "value" "yaw_rate").hasCol) = true) :
    masterMergedE inp rdf = some (masterMerged inp rdf) := by
  unfold masterMergedE
  rw [DF.selectE, if_pos h1]
  show (addSteerE
      (addGps ((rdf.renameCol "value" "rpm").select ["time", "rpm"]) (loadChannel inp.gps))
      (loadChannel inp.steer)).bind
      (fun m1 => addGyroE m1 (loadChannel inp.gyro)) = _
  rw [addSteerE_ok _ _ h2]
  show addGyroE _ (loadChannel inp.gyro) = _
  rw [addGyroE_ok _ _ h3]
  rfl

lemma processBatch_of_rpm (piV : α) (inp : BatchInput α) (rdf : DF α)
    (h : loadChannel inp.rpm = some rdf) :
    processBatchFiles piV inp =
      (masterMergedE inp rdf).map
        (fun m => (some (physicsDerive piV m), "Success (Batch)")) := by
  unfold processBatchFiles
  rw [h]

lemma processBatch_of_no_rpm (piV : α) (inp : BatchInput α)
    (h : loadChannel inp.rpm = none) :
    processBatchFiles piV inp = some (none, "RPM file missing.") := by
  unfold processBatchFiles
  rw [h]

/-- A batch run that returned a table went through the full merge without
raising, and the table is the physics block over the merged master. -/
lemma processBatch_success (piV : α) (inp : BatchInput α) (rdf out : DF α) (msg : String)
    (hl : loadChannel inp.rpm = some rdf)
    (h : processBatchFiles piV inp = some (some out, msg)) :
    out = physicsDerive piV (masterMerged inp rdf) ∧ msg = "Success (Batch)" := by
  rw [processBatch_of_rpm piV inp rdf hl] at h
  cases hm : masterMergedE inp rdf with
  | none => rw [hm] at h; cases h
  | some m =>
    rw [hm] at h
    replace h : some (((some (physicsDerive piV m) : Option (DF α)), "Success (Batch)")) =
        some (((some out : Option (DF α)), msg)) := h
    injection h with h1
    injection h1 with h1 h2
    injection h1 with h1
    constructor
    · rw [← h1, masterMergedE_some inp rdf m hm]
    · exact h2.symm

lemma processBatch_of_rpm_ok (piV : α) (inp : BatchInput α) (rdf m : DF α)
    (hl : loadChannel inp.rpm = some rdf) (hm : masterMergedE inp rdf = some m) :
    processBatchFiles piV inp =
      some (some (physicsDerive piV (masterMerged inp rdf)), "Success (Batch)") := by
  rw [processBatch_of_rpm piV inp rdf hl, hm, masterMergedE_some inp rdf m hm]
  rfl

/-- A returned table pins down the loaded RPM frame and the message. -/
lemma processBatch_success_rpm (piV : α) (inp : BatchInput α) (out : DF α) (msg : String)
    (h : processBatchFiles piV inp = some (some out, msg)) :
    ∃ rdf, loadChannel inp.rpm = some rdf ∧
      out = physicsDerive piV (masterMerged inp rdf) ∧ msg = "Success (Batch)" := by
  cases hl : loadChannel inp.rpm with
  | none =>
    rw [processBatch_of_no_rpm piV inp hl] at h
    injection h with h1
    injection h1 with h1 h2
    injection h1
  | some rdf =>
    obtain ⟨h1, h2⟩ := processBatch_success piV inp rdf out msg hl h
    exact ⟨rdf, rfl, h1, h2⟩

/-- The full allowed column set of a successful batch table. -/
lemma batch_cols_sub (piV : α) (inp : BatchInput α) (out : DF α) (msg : String)
    (h : processBatchFiles piV inp = some (some out, msg)) :
    ∀ x ∈ out.cols,
      x ∈ ["time", "rpm", "speed", "lat", "lon", "steer", "yaw_rate",
           "speed_mph", "lat_g", "lap"] := by
  intro x hx
  obtain ⟨rdf, hl, rfl, -⟩ := processBatch_success_rpm piV inp out msg h
  rcases physicsDerive_cols_sub _ _ x hx with hx2 | hx2
  · have h7 := masterMerged_cols_sub inp rdf x hx2
    simp only [List.mem_cons, List.not_mem_nil, or_false] at h7 ⊢
    tauto
  · simp only [List.mem_cons, List.not_mem_nil, or_false] at hx2 ⊢
    tauto

/-- Appending a fresh `lap` column of zeros makes every row read `lap = 0`. -/
lemma setCol_lap_cell (df : DF α) (hWF : df.WF) (h : "lap" ∉ df.cols) :
    ∀ r ∈ (df.setCol "lap" (fun _ => some 0)).rows,
      (df.setCol "lap" (fun _ => some 0)).getCell r "lap" = some 0 := by
  rw [setCol_eq_of_not df _ _ h]
  intro r hr
  simp only [List.mem_map] at hr
  obtain ⟨r₀, hr₀, rfl⟩ := hr
  rw [getCell_append_right df.cols ["lap"] _ [] r₀ [some 0] "lap" h (hWF r₀ hr₀)]
  rfl

lemma physicsDerive_lap_cell (piV : α) (m : DF α) (hWF : m.WF)
    (h7 : ∀ x ∈ m.cols, x ∈ ["time", "rpm", "speed", "lat", "lon", "steer", "yaw_rate"]) :
    ∀ r ∈ (physicsDerive piV m).rows, (physicsDerive piV m).getCell r "lap" = some 0 := by
  simp only [physicsDerive]
  apply setCol_lap_cell
  · exact iteSetCol_WF _ _ _ _ (iteSetCol_WF _ _ _ _ (fillna0_WF _ hWF))
  · intro hmem
    rcases iteSetCol_cols_mem _ _ _ _ _ hmem with hmem | heq
    · rcases iteSetCol_cols_mem _ _ _ _ _ hmem with hmem | heq
      · rw [fillna0_cols] at hmem
        have h4 := h7 _ hmem
        simp at h4
      · exact absurd heq (by decide)
    · exact absurd heq (by decide)

/-! ## Single-file column lemmas -/

lemma setColVals_self_mem (df : DF α) (c : String) (vals : List (Option α)) :
    c ∈ (df.setColVals c vals).cols := by
  unfold DF.setColVals
  by_cases hc : df.hasCol c = true
  · rw [if_pos hc]
    exact (hasCol_iff_mem df c).mp hc
  · rw [if_neg hc]
    simp

lemma processSingleFile_parts (raw : DF α) (markers : List α) (out : DF α) (msg : String)
    (h : processSingleFile raw markers = (some out, msg)) :
    msg = "Success (Single File)" ∧
    (∀ x ∈ out.cols,
      x ∈ ["Time", "lap", "rpm", "speed_mph", "steer", "lat_g", "long_g"]) ∧
    "lap" ∈ out.cols := by
  simp only [processSingleFile] at h
  injection h with h1 h2
  injection h1 with h1
  subst h1
  refine ⟨h2.symm, ?_, ?_⟩
  · intro x hx
    obtain ⟨hin, _⟩ := select_cols_sub _ _ x hx
    exact (List.mem_filter.mp hin).1
  · rw [select_cols]
    rw [List.mem_filter]
    have hlapmem :
        "lap" ∈ (DF.mk
          ((((DF.mk (raw.cols.map cleanColName) (raw.rows.drop 1) : DF α).setColVals "lap"
            ((assignLaps ((raw.rows.drop 1).map (fun r =>
              (DF.mk (raw.cols.map cleanColName) (raw.rows.drop 1) : DF α).getCell r "Time"))
              markers).map (fun l => some ((l : ℕ) : α)))).cols).map renameMapSF)
          (((DF.mk (raw.cols.map cleanColName) (raw.rows.drop 1) : DF α).setColVals "lap"
            ((assignLaps ((raw.rows.drop 1).map (fun r =>
              (DF.mk (raw.cols.map cleanColName) (raw.rows.drop 1) : DF α).getCell r "Time"))
              markers).map (fun l => some ((l : ℕ) : α)))).rows) : DF α).cols := by
      simp only [List.mem_map]
      exact ⟨"lap", setColVals_self_mem _ _ _, rfl⟩
    constructor
    · rw [List.mem_filter]
      refine ⟨by simp, ?_⟩
      rw [hasCol_iff_mem]
      exact hlapmem
    · rw [hasCol_iff_mem]
      exact hlapmem

end DFLemmas

/-! ## Lap-assignment lemmas -/

section LapLemmas
variable {α : Type} [LinearOrderedField α]

/-- The lap column is computed row-wise: entry `i` of the fold equals the
per-row fold on time cell `i`. -/
lemma lapFold_getElem (times : List (Option α)) :
    ∀ (markers : List α) (L : List ℕ) (s : α) (c : ℕ) (i : ℕ),
      L.length = times.length →
      ((markers.foldl (lapStep times) (L, s, c)).1)[i]? =
        (match times[i]?, L[i]? with
         | some t, some l => some (lapPointFold t markers (l, s, c)).1
         | _, _ => none) := by
  intro markers
  induction markers with
  | nil =>
    intro L s c i hlen
    simp only [List.foldl_nil, lapPointFold, List.foldl_nil]
    cases ht : times[i]? with
    | none =>
      have hi : times.length ≤ i := by
        by_contra hcon
        push_neg at hcon
        rw [List.getElem?_eq_none_iff] at ht
        omega
      rw [List.getElem?_eq_none (by omega)]
    | some t =>
      have hi : i < times.length := by
        rcases List.getElem?_eq_some.mp ht with ⟨h, -⟩
        exact h
      rw [List.getElem?_eq_getElem (by omega : i < L.length)]
  | cons m rest ih =>
    intro L s c i hlen
    rw [List.foldl_cons]
    have hstep : lapStep times (L, s, c) m =
        (List.zipWith (fun t l =>
          match t with
          | some tv => if s ≤ tv ∧ tv < m then c else l
          | none => l) times L, m, c + 1) := rfl
    rw [hstep]
    rw [ih _ m (c + 1) i (by rw [List.length_zipWith]; omega)]
    rw [List.getElem?_zipWith]
    cases ht : times[i]? with
    | none => rfl
    | some t =>
      cases hl : L[i]? with
      | none => rfl
      | some l =>
        cases t with
        | none => rfl
        | some tv => rfl

lemma assignLaps_getElem (times : List (Option α)) (markers : List α) (i : ℕ) :
    (assignLaps times markers)[i]? =
      (times[i]?).map (fun t => (lapPointFold t markers (1, 0, 1)).1) := by
  unfold assignLaps assignLapsFold
  rw [lapFold_getElem times markers _ _ _ i (by simp)]
  cases ht : times[i]? with
  | none => rfl
  | some t =>
    have hi : i < times.length := by
      rcases List.getElem?_eq_some.mp ht with ⟨h, -⟩
      exact h
    rw [List.getElem?_map, ht]
    rfl

/-- The lap value stays at least 1 from the loop's start state. -/
lemma lapPointFold_ge_one (t : Option α) :
    ∀ (markers : List α) (st : ℕ × α × ℕ), 1 ≤ st.1 → 1 ≤ st.2.2 →
      1 ≤ (lapPointFold t markers st).1 := by
  intro markers
  induction markers with
  | nil => intro st h1 _; exact h1
  | cons m rest ih =>
    intro st h1 hc
    unfold lapPointFold at ih ⊢
    rw [List.foldl_cons]
    apply ih
    · unfold lapPointStep
      cases t with
      | none => exact h1
      | some tv =>
        simp only
        split
        · exact hc
        · exact h1
    · unfold lapPointStep
      simp only
      omega

/-- A row whose time is at or above every marker is never reassigned. -/
lemma lapPointFold_keep (tv : α) :
    ∀ (markers : List α) (st : ℕ × α × ℕ), (∀ m ∈ markers, ¬ tv < m) →
      (lapPointFold (some tv) markers st).1 = st.1 := by
  intro markers
  induction markers with
  | nil => intro st _; rfl
  | cons m rest ih =>
    intro st hm
    unfold lapPointFold at ih ⊢
    rw [List.foldl_cons]
    have hstep : lapPointStep (some tv) st m = (st.1, m, st.2.2 + 1) := by
      unfold lapPointStep
      simp only
      rw [if_neg (by
        intro hcon
        exact hm m (List.mem_cons_self m rest) hcon.2)]
    rw [hstep, ih _ (fun x hx => hm x (List.mem_cons_of_mem m hx))]

/-- A `NaN` time never matches any mask. -/
lemma lapPointFold_none :
    ∀ (markers : List α) (st : ℕ × α × ℕ), (lapPointFold none markers st).1 = st.1 := by
  intro markers
  induction markers with
  | nil => intro st; rfl
  | cons m rest ih =>
    intro st
    unfold lapPointFold at ih ⊢
    rw [List.foldl_cons]
    rw [ih]
    rfl

/-- A row strictly below the running boundary, with all markers above it,
is never reassigned either. -/
lemma lapPointFold_keep_below (tv : α) :
    ∀ (markers : List α) (st : ℕ × α × ℕ), tv < st.2.1 → (∀ m ∈ markers, tv < m) →
      (lapPointFold (some tv) markers st).1 = st.1 := by
  intro markers
  induction markers with
  | nil => intro st _ _; rfl
  | cons m rest ih =>
    intro st hs hm
    unfold lapPointFold at ih ⊢
    rw [List.foldl_cons]
    have hstep : lapPointStep (some tv) st m = (st.1, m, st.2.2 + 1) := by
      unfold lapPointStep
      simp only
      rw [if_neg (by
        intro hcon
        exact absurd hcon.1 (not_le.mpr hs))]
    rw [hstep, ih _ (hm m (List.mem_cons_self m rest))
      (fun x hx => hm x (List.mem_cons_of_mem m hx))]

/-- Characterisation of the loop on an in-range row: starting the loop at
boundary `s ≤ tv` and counter `c`, a row with `tv` strictly below the last
marker ends on `c` plus the number of markers at or below `tv`. -/
lemma lapPointFold_char (tv : α) :
    ∀ (markers : List α) (hne : markers ≠ []) (l : ℕ) (s : α) (c : ℕ),
      s ≤ tv → markers.Pairwise (· < ·) → tv < markers.getLast hne →
      (lapPointFold (some tv) markers (l, s, c)).1 =
        c + markers.countP (fun m => m ≤ tv) := by
  intro markers
  induction markers with
  | nil => intro hne; exact absurd rfl hne
  | cons m rest ih =>
    intro hne l s c hs hp hlast
    obtain ⟨hm, hp'⟩ := List.pairwise_cons.mp hp
    by_cases hlt : tv < m
    · -- the row falls in [s, m): it is assigned `c` and never reassigned
      have hstep : lapPointStep (some tv) (l, s, c) m = (c, m, c + 1) := by
        unfold lapPointStep
        simp only
        rw [if_pos ⟨hs, hlt⟩]
      unfold lapPointFold
      rw [List.foldl_cons, hstep]
      have hrest : ∀ x ∈ rest, tv < x := fun x hx => lt_trans hlt (hm x hx)
      have hkeep := lapPointFold_keep_below tv rest (c, m, c + 1) hlt hrest
      unfold lapPointFold at hkeep
      rw [hkeep]
      have hcount : (m :: rest).countP (fun x => x ≤ tv) = 0 := by
        rw [List.countP_eq_zero]
        intro a ha
        rcases List.mem_cons.mp ha with rfl | ha
        · simpa using hlt
        · simpa using hrest a ha
      rw [hcount]
      omega
    · -- the marker is at or below the row: boundary advances past it
      push_neg at hlt
      have hstep : lapPointStep (some tv) (l, s, c) m = (l, m, c + 1) := by
        unfold lapPointStep
        simp only
        rw [if_neg (by intro hcon; exact absurd hcon.2 (not_lt.mpr hlt))]
      cases rest with
      | nil =>
        exfalso
        have hgl : (([m] : List α)).getLast hne = m := rfl
        rw [hgl] at hlast
        exact absurd hlast (not_lt.mpr hlt)
      | cons r rest' =>
        unfold lapPointFold
        rw [List.foldl_cons, hstep]
        have hne' : (r :: rest' : List α) ≠ [] := by simp
        have hlast' : tv < (r :: rest').getLast hne' := by
          rw [List.getLast_cons hne'] at hlast
          exact hlast
        have hih := ih hne' l m (c + 1) hlt hp' hlast'
        unfold lapPointFold at hih
        rw [hih,
          @List.countP_cons_of_pos α (fun x => decide (x ≤ tv)) m (r :: rest')
            (by simpa using hlt)]
        omega

/-- In a strictly ascending list, the entries at or below entry `k` are
exactly the first `k + 1`. -/
lemma countP_le_of_sorted :
    ∀ (markers : List α) (k : ℕ) (mv : α), markers.Pairwise (· < ·) →
      markers[k]? = some mv → markers.countP (fun m => m ≤ mv) = k + 1 := by
  intro markers
  induction markers with
  | nil => intro k mv _ h; simp at h
  | cons a rest ih =>
    intro k mv hp h
    obtain ⟨ha, hp'⟩ := List.pairwise_cons.mp hp
    cases k with
    | zero =>
      simp only [List.getElem?_cons_zero] at h
      obtain rfl : a = mv := Option.some.inj h
      rw [List.countP_cons_of_pos _ _ (by simp)]
      have hz : rest.countP (fun m => m ≤ a) = 0 := by
        rw [List.countP_eq_zero]
        intro x hx
        simpa using not_le.mpr (ha x hx)
      rw [hz]
    | succ k' =>
      simp only [List.getElem?_cons_succ] at h
      have hmem : mv ∈ rest := by
        rw [List.mem_iff_getElem?]
        exact ⟨k', h⟩
      rw [List.countP_cons_of_pos _ _ (by simpa using le_of_lt (ha mv hmem)),
        ih k' mv hp' h]

/-- Every element of an ascending chain is at most its last element. -/
lemma le_getLast_of_pairwise :
    ∀ (l : List α) (h : l ≠ []), l.Pairwise (· ≤ ·) → ∀ x ∈ l, x ≤ l.getLast h := by
  intro l
  induction l with
  | nil => intro h; exact absurd rfl h
  | cons a rest ih =>
    intro h hp x hx
    obtain ⟨ha, hp'⟩ := List.pairwise_cons.mp hp
    cases rest with
    | nil =>
      rcases List.mem_cons.mp hx with rfl | hx
      · rfl
      · simp at hx
    | cons r rest' =>
      have hne : (r :: rest' : List α) ≠ [] := by simp
      rw [List.getLast_cons hne]
      rcases List.mem_cons.mp hx with rfl | hx
      · exact le_trans (ha r (List.mem_cons_self r rest'))
          (ih hne hp' r (List.mem_cons_self r rest'))
      · exact ih hne hp' x hx

/-- The loop's final counter is the marker count plus one. -/
lemma lapFold_counter (times : List (Option α)) :
    ∀ (markers : List α) (L : List ℕ) (s : α) (c : ℕ),
      (markers.foldl (lapStep times) (L, s, c)).2.2 = c + markers.length := by
  intro markers
  induction markers with
  | nil => intro L s c; rfl
  | cons m rest ih =>
    intro L s c
    rw [List.foldl_cons]
    have hstep : lapStep times (L, s, c) m =
        (List.zipWith (fun t l =>
          match t with
          | some tv => if s ≤ tv ∧ tv < m then c else l
          | none => l) times L, m, c + 1) := rfl
    rw [hstep, ih]
    simp only [List.length_cons]
    omega

end LapLemmas

/-! ## Nearest-join lemmas -/

section NearestLemmas
variable {α : Type} [LinearOrderedField α]

/-- Folding from a best candidate over later (larger-time) sorted
candidates returns a minimiser of the distance to `t`, breaking ties
toward the smaller timestamp. -/
lemma nearestPick_go (t : α) :
    ∀ (xs : List (α × List (Option α))) (b : α × List (Option α)),
      (∀ d ∈ xs, b.1 < d.1) → List.Pairwise (fun u v => u.1 < v.1) xs →
      ∃ c, xs.foldl (fun best cc =>
          match best with
          | none => some cc
          | some bb => if |cc.1 - t| < |bb.1 - t| then some cc else some bb) (some b) = some c ∧
        (c = b ∨ c ∈ xs) ∧
        (∀ d, (d = b ∨ d ∈ xs) →
          |c.1 - t| < |d.1 - t| ∨ (|c.1 - t| = |d.1 - t| ∧ c.1 ≤ d.1)) := by
  intro xs
  induction xs with
  | nil =>
    intro b _ _
    refine ⟨b, rfl, Or.inl rfl, ?_⟩
    rintro d (rfl | hd)
    · exact Or.inr ⟨rfl, le_rfl⟩
    · simp at hd
  | cons x rest ih =>
    intro b hb hp
    obtain ⟨hx, hp2⟩ := List.pairwise_cons.mp hp
    rw [List.foldl_cons]
    by_cases himp : |x.1 - t| < |b.1 - t|
    · have hstep : (match some b with
          | none => some x
          | some bb => if |x.1 - t| < |bb.1 - t| then some x else some bb) = some x := by
        simp only
        rw [if_pos himp]
      rw [hstep]
      obtain ⟨c, hc, hmem, hmin⟩ := ih x hx hp2
      refine ⟨c, hc, ?_, ?_⟩
      · rcases hmem with heq | hmem
        · exact Or.inr (by rw [heq]; exact List.mem_cons_self x rest)
        · exact Or.inr (List.mem_cons_of_mem x hmem)
      · rintro d (rfl | hd)
        · -- the displaced b: the new best is strictly closer
          rcases hmin x (Or.inl rfl) with hlt | ⟨heq, -⟩
          · exact Or.inl (lt_trans hlt himp)
          · exact Or.inl (heq ▸ himp)
        · rcases List.mem_cons.mp hd with heq | hd
          · rw [heq]
            exact hmin x (Or.inl rfl)
          · exact hmin d (Or.inr hd)
    · have hstep : (match some b with
          | none => some x
          | some bb => if |x.1 - t| < |bb.1 - t| then some x else some bb) = some b := by
        simp only
        rw [if_neg himp]
      rw [hstep]
      obtain ⟨c, hc, hmem, hmin⟩ := ih b (fun d hd => hb d (List.mem_cons_of_mem x hd)) hp2
      refine ⟨c, hc, ?_, ?_⟩
      · rcases hmem with heq | hmem
        · exact Or.inl heq
        · exact Or.inr (List.mem_cons_of_mem x hmem)
      · rintro d (rfl | hd)
        · exact hmin d (Or.inl rfl)
        · rcases List.mem_cons.mp hd with heq | hd
          · -- the skipped head x: b was at most as far, ties go to b's side
            subst heq
            push_neg at himp
            have hbx : b.1 < d.1 := hb d (List.mem_cons_self d rest)
            rcases hmin b (Or.inl rfl) with hlt | ⟨heq2, hcb⟩
            · exact Or.inl (lt_of_lt_of_le hlt himp)
            · rcases lt_or_eq_of_le himp with h1 | h1
              · exact Or.inl (lt_of_le_of_lt (le_of_eq heq2) h1)
              · exact Or.inr ⟨heq2.trans h1, le_trans hcb (le_of_lt hbx)⟩
          · exact hmin d (Or.inr hd)

/-- `nearestPick` on a time-sorted candidate list returns the
minimal-distance candidate, ties broken toward the earlier timestamp. -/
lemma nearestPick_spec (t : α) (cands : List (α × List (Option α)))
    (hp : List.Pairwise (fun u v => u.1 < v.1) cands) :
    ∀ c, nearestPick t cands = some c →
      c ∈ cands ∧
      ∀ d ∈ cands, |c.1 - t| < |d.1 - t| ∨ (|c.1 - t| = |d.1 - t| ∧ c.1 ≤ d.1) := by
  intro c hc
  cases cands with
  | nil => cases hc
  | cons x rest =>
    obtain ⟨hx, hp2⟩ := List.pairwise_cons.mp hp
    obtain ⟨c2, hc2, hmem, hmin⟩ := nearestPick_go t rest x hx hp2
    unfold nearestPick at hc
    rw [List.foldl_cons] at hc
    have hcc : c2 = c := by
      have hfold : (rest.foldl (fun best cc =>
          match best with
          | none => some cc
          | some bb => if |cc.1 - t| < |bb.1 - t| then some cc else some bb) (some x)) = some c := hc
      rw [hc2] at hfold
      exact Option.some.inj hfold
    subst hcc
    constructor
    · rcases hmem with heq | hmem
      · rw [heq]
        exact List.mem_cons_self x rest
      · exact List.mem_cons_of_mem x hmem
    · intro d hd
      rcases List.mem_cons.mp hd with heq | hd
      · rw [heq]
        exact hmin x (Or.inl rfl)
      · exact hmin d (Or.inr hd)

/-- Shape of each merged row: the left row with either the nearest
candidate's cells or nulls appended. -/
lemma mergeAsof_row_spec (l r : DF α) :
    ∀ row2 ∈ (mergeAsofNearest l r).rows, ∃ row ∈ l.rows,
      (∀ t, l.getCell row "time" = some t →
        (∀ c, nearestPick t (asofCands r) = some c →
          row2 = row ++ (asofCols r).map (fun col => r.getCell c.2 col)) ∧
        (nearestPick t (asofCands r) = none →
          row2 = row ++ (asofCols r).map (fun _ => (none : Option α)))) ∧
      (l.getCell row "time" = none →
        row2 = row ++ (asofCols r).map (fun _ => (none : Option α))) := by
  intro row2 h
  simp only [mergeAsofNearest, List.mem_map] at h
  obtain ⟨row, hrow, rfl⟩ := h
  refine ⟨row, hrow, ?_, ?_⟩
  · intro t ht
    constructor
    · intro c hc
      rw [ht]
      show (match nearestPick t (asofCands r) with
        | some c => row ++ (asofCols r).map (fun col => r.getCell c.2 col)
        | none => row ++ (asofCols r).map (fun _ => (none : Option α))) =
        row ++ (asofCols r).map (fun col => r.getCell c.2 col)
      rw [hc]
    · intro hc
      rw [ht]
      show (match nearestPick t (asofCands r) with
        | some c => row ++ (asofCols r).map (fun col => r.getCell c.2 col)
        | none => row ++ (asofCols r).map (fun _ => (none : Option α))) =
        row ++ (asofCols r).map (fun _ => (none : Option α))
      rw [hc]
  · intro ht
    rw [ht]

end NearestLemmas

/-! ## Cell transport through the physics block -/

section TransportLemmas
variable {α : Type} [LinearOrderedField α]

lemma setCol_cols_mono (df : DF α) (c : String) (f : List (Option α) → Option α)
    (x : String) (hx : x ∈ df.cols) : x ∈ (df.setCol c f).cols := by
  unfold DF.setCol
  split
  · exact hx
  · exact List.mem_append_left _ hx

lemma iteSetCol_cols_mono (P : Prop) [Decidable P] (df : DF α) (c : String)
    (f : List (Option α) → Option α) (x : String) (hx : x ∈ df.cols) :
    x ∈ (if P then df.setCol c f else df).cols := by
  by_cases hP : P
  · rw [if_pos hP]; exact setCol_cols_mono df c f x hx
  · rw [if_neg hP]; exact hx

lemma setCol_self_mem (df : DF α) (c : String) (f : List (Option α) → Option α) :
    c ∈ (df.setCol c f).cols := by
  unfold DF.setCol
  by_cases h : df.hasCol c = true
  · rw [if_pos h]
    exact (hasCol_iff_mem df c).mp h
  · rw [if_neg h]
    simp

lemma fillna0_row_spec (m : DF α) (hWF : m.WF) :
    ∀ r1 ∈ m.fillna0.rows, ∃ r ∈ m.rows,
      r1 = r.map (fun v => some (v.getD 0)) ∧
      ∀ x ∈ m.cols, m.fillna0.getCell r1 x = some ((m.getCell r x).getD 0) := by
  intro r1 h
  simp only [DF.fillna0, List.mem_map] at h
  obtain ⟨r, hr, rfl⟩ := h
  refine ⟨r, hr, rfl, ?_⟩
  intro x hx
  obtain ⟨i, hi⟩ := Option.isSome_iff_exists.mp ((colIdx_isSome_iff m x).mpr hx)
  have hlt : i < m.cols.length := colIdx_lt m x hi
  have hidx2 : (m.fillna0).colIdx x = some i := hi
  rw [getCell_of_colIdx _ _ _ _ hidx2, getCell_of_colIdx _ _ _ _ hi]
  rw [List.getElem?_map]
  rw [List.getElem?_eq_getElem (show i < r.length by rw [hWF r hr]; exact hlt)]
  rfl

lemma setCol_row_spec (df : DF α) (c : String) (f : List (Option α) → Option α)
    (hnc : c ∉ df.cols) (hWF : df.WF) :
    ∀ r2 ∈ (df.setCol c f).rows, ∃ r ∈ df.rows, r2 = r ++ [f r] ∧
      (∀ x ∈ df.cols, (df.setCol c f).getCell r2 x = df.getCell r x) ∧
      (df.setCol c f).getCell r2 c = f r := by
  rw [setCol_eq_of_not df c f hnc]
  intro r2 h
  simp only [List.mem_map] at h
  obtain ⟨r, hr, rfl⟩ := h
  refine ⟨r, hr, rfl, ?_, ?_⟩
  · intro x hx
    exact getCell_append_left df.cols [c] _ df.rows r [f r] x hx (hWF r hr)
  · rw [getCell_append_right df.cols [c] _ [] r [f r] c hnc (hWF r hr)]
    have hidx : (DF.mk [c] ([] : List (List (Option α))) : DF α).colIdx c = some 0 := by
      unfold DF.colIdx
      rw [List.findIdx?_cons]
      rw [if_pos (by simp)]
    rw [getCell_of_colIdx _ _ _ _ hidx]
    rfl

lemma iteSetCol_row_spec (P : Prop) [Decidable P] (df : DF α) (c : String)
    (f : List (Option α) → Option α) (hnc : c ∉ df.cols) (hWF : df.WF) :
    ∀ r2 ∈ (if P then df.setCol c f else df).rows, ∃ r ∈ df.rows,
      ∀ x ∈ df.cols, (if P then df.setCol c f else df).getCell r2 x = df.getCell r x := by
  by_cases hP : P
  · rw [if_pos hP]
    intro r2 h
    obtain ⟨r, hr, -, hpres, -⟩ := setCol_row_spec df c f hnc hWF r2 h
    exact ⟨r, hr, hpres⟩
  · rw [if_neg hP]
    intro r2 h
    exact ⟨r2, h, fun x _ => rfl⟩

/-- Row-level description of the physics block: every output row reads,
in each merge column, the zero-filled value of one master row; and when
speed and yaw-rate columns are present, its `lat_g` cell carries the
lateral-g formula applied to that row's zero-filled speed and yaw rate. -/
lemma physicsDerive_row_spec (piV : α) (m : DF α) (hWF : m.WF)
    (h7 : ∀ x ∈ m.cols,
      x ∈ ["time", "rpm", "speed", "lat", "lon", "steer", "yaw_rate"]) :
    ∀ row2 ∈ (physicsDerive piV m).rows, ∃ r ∈ m.rows,
      (∀ x ∈ m.cols,
        (physicsDerive piV m).getCell row2 x = some ((m.getCell r x).getD 0)) ∧
      ("speed" ∈ m.cols → "yaw_rate" ∈ m.cols →
        (physicsDerive piV m).getCell row2 "lat_g" =
          some (((m.getCell r "speed").getD 0) *
            (((m.getCell r "yaw_rate").getD 0) * piV / 180) / ((981 : α)/100) * (-1))) := by
  intro row2 hrow2
  have hm0WF : (m.fillna0).WF := fillna0_WF m hWF
  have hmph_not : "speed_mph" ∉ (m.fillna0).cols := by
    rw [fillna0_cols]
    intro hmem
    have hbad := h7 _ hmem
    simp at hbad
  have hlat_not0 : "lat_g" ∉ (m.fillna0).cols := by
    rw [fillna0_cols]
    intro hmem
    have hbad := h7 _ hmem
    simp at hbad
  have hlap_not0 : "lap" ∉ (m.fillna0).cols := by
    rw [fillna0_cols]
    intro hmem
    have hbad := h7 _ hmem
    simp at hbad
  simp only [physicsDerive] at hrow2 ⊢
  by_cases hcs : "speed" ∈ m.cols
  · have hc1 : (m.fillna0).hasCol "speed" = true := by
      rw [hasCol_iff_mem, fillna0_cols]
      exact hcs
    rw [if_pos hc1] at hrow2 ⊢
    have hE1WF : ((m.fillna0).setCol "speed_mph"
        (fun r => ((m.fillna0).getCell r "speed").map (fun s => s * (2237/1000)))).WF :=
      setCol_WF _ _ _ hm0WF
    have hlat_not : "lat_g" ∉ ((m.fillna0).setCol "speed_mph"
        (fun r => ((m.fillna0).getCell r "speed").map (fun s => s * (2237/1000)))).cols := by
      intro hmem
      rcases setCol_cols_mem _ _ _ _ hmem with hmem | hbad
      · exact hlat_not0 hmem
      · exact absurd hbad (by decide)
    have hlap_not1 : "lap" ∉ ((m.fillna0).setCol "speed_mph"
        (fun r => ((m.fillna0).getCell r "speed").map (fun s => s * (2237/1000)))).cols := by
      intro hmem
      rcases setCol_cols_mem _ _ _ _ hmem with hmem | hbad
      · exact hlap_not0 hmem
      · exact absurd hbad (by decide)
    by_cases hcy : "yaw_rate" ∈ m.cols
    · have hc2 : (((m.fillna0).setCol "speed_mph"
          (fun r => ((m.fillna0).getCell r "speed").map (fun s => s * (2237/1000)))).hasCol
            "yaw_rate" &&
          ((m.fillna0).setCol "speed_mph"
          (fun r => ((m.fillna0).getCell r "speed").map (fun s => s * (2237/1000)))).hasCol
            "speed") = true := by
        rw [Bool.and_eq_true, hasCol_iff_mem, hasCol_iff_mem]
        constructor
        · exact setCol_cols_mono _ _ _ _ (by rw [fillna0_cols]; exact hcy)
        · exact setCol_cols_mono _ _ _ _ (by rw [fillna0_cols]; exact hcs)
      rw [if_pos hc2] at hrow2 ⊢
      have hE2WF : ∀ g : List (Option α) → Option α,
          (((m.fillna0).setCol "speed_mph"
          (fun r => ((m.fillna0).getCell r "speed").map (fun s => s * (2237/1000)))).setCol
            "lat_g" g).WF :=
        fun g => setCol_WF _ "lat_g" g hE1WF
      have hlap_not2 : ∀ g : List (Option α) → Option α,
          "lap" ∉ (((m.fillna0).setCol "speed_mph"
          (fun r => ((m.fillna0).getCell r "speed").map (fun s => s * (2237/1000)))).setCol
            "lat_g" g).cols := by
        intro g hmem
        rcases setCol_cols_mem _ _ _ _ hmem with hmem | hbad
        · exact hlap_not1 hmem
        · exact absurd hbad (by decide)
      obtain ⟨r2, hr2, -, hpres3, -⟩ :=
        setCol_row_spec _ "lap" (fun _ => some 0) (hlap_not2 _) (hE2WF _) row2 hrow2
      obtain ⟨r1, hr1, -, hpres2, hnew2⟩ :=
        setCol_row_spec _ "lat_g" _ hlat_not hE1WF r2 hr2
      obtain ⟨r0, hr0, -, hpres1, -⟩ :=
        setCol_row_spec _ "speed_mph" _ hmph_not hm0WF r1 hr1
      obtain ⟨r, hr, -, hfill⟩ := fillna0_row_spec m hWF r0 hr0
      refine ⟨r, hr, ?_, ?_⟩
      · intro x hx
        have hx0 : x ∈ (m.fillna0).cols := by rw [fillna0_cols]; exact hx
        have hx1 := setCol_cols_mono (m.fillna0) "speed_mph"
          (fun r => ((m.fillna0).getCell r "speed").map (fun s => s * (2237/1000))) x hx0
        rw [hpres3 x (setCol_cols_mono _ "lat_g" _ x hx1), hpres2 x hx1,
          hpres1 x hx0, hfill x hx]
      · intro _ _
        rw [hpres3 "lat_g" (setCol_self_mem _ "lat_g" _), hnew2]
        have hsE1 : (((m.fillna0).setCol "speed_mph"
            (fun r => ((m.fillna0).getCell r "speed").map
              (fun s => s * (2237/1000)))).getCell r1 "speed") =
            some ((m.getCell r "speed").getD 0) := by
          rw [hpres1 "speed" (by rw [fillna0_cols]; exact hcs), hfill "speed" hcs]
        have hyE1 : (((m.fillna0).setCol "speed_mph"
            (fun r => ((m.fillna0).getCell r "speed").map
              (fun s => s * (2237/1000)))).getCell r1 "yaw_rate") =
            some ((m.getCell r "yaw_rate").getD 0) := by
          rw [hpres1 "yaw_rate" (by rw [fillna0_cols]; exact hcy), hfill "yaw_rate" hcy]
        rw [hsE1, hyE1]
    · have hc2f : ¬ ((((m.fillna0).setCol "speed_mph"
          (fun r => ((m.fillna0).getCell r "speed").map (fun s => s * (2237/1000)))).hasCol
            "yaw_rate" &&
          ((m.fillna0).setCol "speed_mph"
          (fun r => ((m.fillna0).getCell r "speed").map (fun s => s * (2237/1000)))).hasCol
            "speed") = true) := by
        rw [Bool.and_eq_true, hasCol_iff_mem]
        rintro ⟨hmem, -⟩
        rcases setCol_cols_mem _ _ _ _ hmem with hmem | hbad
        · rw [fillna0_cols] at hmem
          exact hcy hmem
        · exact absurd hbad (by decide)
      rw [if_neg hc2f] at hrow2 ⊢
      obtain ⟨r2, hr2, -, hpres3, -⟩ :=
        setCol_row_spec _ "lap" (fun _ => some 0) hlap_not1 hE1WF row2 hrow2
      obtain ⟨r0, hr0, -, hpres1, -⟩ :=
        setCol_row_spec _ "speed_mph" _ hmph_not hm0WF r2 hr2
      obtain ⟨r, hr, -, hfill⟩ := fillna0_row_spec m hWF r0 hr0
      refine ⟨r, hr, ?_, ?_⟩
      · intro x hx
        have hx0 : x ∈ (m.fillna0).cols := by rw [fillna0_cols]; exact hx
        have hx1 := setCol_cols_mono (m.fillna0) "speed_mph"
          (fun r => ((m.fillna0).getCell r "speed").map (fun s => s * (2237/1000))) x hx0
        rw [hpres3 x hx1, hpres1 x hx0, hfill x hx]
      · intro _ hy
        exact absurd hy hcy
  · have hc1f : ¬ ((m.fillna0).hasCol "speed" = true) := by
      rw [hasCol_iff_mem, fillna0_cols]
      exact hcs
    rw [if_neg hc1f] at hrow2 ⊢
    have hc2f : ¬ (((m.fillna0).hasCol "yaw_rate" && (m.fillna0).hasCol "speed") = true) := by
      rw [Bool.and_eq_true]
      rintro ⟨-, hmem⟩
      exact hc1f hmem
    rw [if_neg hc2f] at hrow2 ⊢
    obtain ⟨r2, hr2, -, hpres3, -⟩ :=
      setCol_row_spec _ "lap" (fun _ => some 0) hlap_not0 hm0WF row2 hrow2
    obtain ⟨r, hr, -, hfill⟩ := fillna0_row_spec m hWF r2 hr2
    refine ⟨r, hr, ?_, ?_⟩
    · intro x hx
      have hx0 : x ∈ (m.fillna0).cols := by rw [fillna0_cols]; exact hx
      rw [hpres3 x hx0, hfill x hx]
    · intro hs _
      exact absurd hs hcs

lemma physicsDerive_cols_mono (piV : α) (m : DF α) (x : String) (hx : x ∈ m.cols) :
    x ∈ (physicsDerive piV m).cols := by
  simp only [physicsDerive]
  exact setCol_cols_mono _ _ _ _ (iteSetCol_cols_mono _ _ _ _ _ (iteSetCol_cols_mono _ _ _ _ _
    (by rw [fillna0_cols]; exact hx)))

lemma addGps_WF (m : DF α) (g : Option (DF α)) (h : m.WF) : (addGps m g).WF := by
  cases g with
  | none => exact h
  | some g => exact mergeAsof_WF _ _ h

lemma loadChannel_time (file : Option (Option (DF α))) (df : DF α)
    (h : loadChannel file = some df) : "time" ∈ df.cols := by
  cases file with
  | none => cases h
  | some f =>
    cases f with
    | none => cases h
    | some raw =>
      simp only [loadChannel] at h
      by_cases hc : (raw.normalizeCols).hasCol "time" = true
      · rw [if_pos hc] at h
        by_cases hn : (raw.normalizeCols).cols.count "time" = 1
        · rw [if_pos hn] at h
          obtain rfl : ((raw.normalizeCols.dropnaOn "time").sortOn "time") = df :=
            Option.some.inj h
          rw [sortOn_cols, dropnaOn_cols]
          exact (hasCol_iff_mem _ _).mp hc
        · rw [if_neg hn] at h
          cases h
      · rw [if_neg hc] at h
        cases h

/-- A row made of nulls reads null in every column. -/
lemma getCell_const_none (cs : List String) (rs : List (List (Option α))) (c : String) :
    (DF.mk cs rs : DF α).getCell (cs.map (fun _ => (none : Option α))) c = none := by
  cases hidx : (DF.mk cs rs : DF α).colIdx c with
  | none => exact getCell_of_colIdx_none _ _ _ hidx
  | some i =>
    rw [getCell_of_colIdx _ _ _ _ hidx]
    have hlt : i < cs.length := colIdx_lt _ _ hidx
    rw [List.getElem?_map, List.getElem?_eq_getElem hlt]
    rfl

/-- Every merged row is the left row with some tail appended. -/
lemma mergeAsof_row_shape (l r : DF α) :
    ∀ row2 ∈ (mergeAsofNearest l r).rows, ∃ row ∈ l.rows, ∃ tail, row2 = row ++ tail := by
  intro row2 h
  simp only [mergeAsofNearest, List.mem_map] at h
  obtain ⟨row, hrow, rfl⟩ := h
  refine ⟨row, hrow, ?_⟩
  cases hl : l.getCell row "time" with
  | none => exact ⟨(asofCols r).map (fun _ => (none : Option α)), rfl⟩
  | some t =>
    cases hn : nearestPick t (asofCands r) with
    | none =>
      refine ⟨(asofCols r).map (fun _ => (none : Option α)), ?_⟩
      show (match nearestPick t (asofCands r) with
        | some c => row ++ (asofCols r).map (fun col => r.getCell c.2 col)
        | none => row ++ (asofCols r).map (fun _ => (none : Option α))) = _
      rw [hn]
    | some c =>
      refine ⟨(asofCols r).map (fun col => r.getCell c.2 col), ?_⟩
      show (match nearestPick t (asofCands r) with
        | some c => row ++ (asofCols r).map (fun col => r.getCell c.2 col)
        | none => row ++ (asofCols r).map (fun _ => (none : Option α))) = _
      rw [hn]

/-- A left column's cell is untouched by a nearest-join. -/
lemma mergeAsof_getCell_left (l r : DF α) (hWF : l.WF) (x : String) (hx : x ∈ l.cols) :
    ∀ row2 ∈ (mergeAsofNearest l r).rows, ∃ row ∈ l.rows,
      (mergeAsofNearest l r).getCell row2 x = l.getCell row x := by
  intro row2 h
  obtain ⟨row, hrow, tail, rfl⟩ := mergeAsof_row_shape l r row2 h
  refine ⟨row, hrow, ?_⟩
  exact getCell_append_left l.cols (asofCols r) _ l.rows row tail x hx (hWF row hrow)

/-- A nearest-join against a frame with no candidate rows appends nulls to
every left row. -/
lemma mergeAsof_empty_rows (l r : DF α) (hc : asofCands r = []) :
    ∀ row2 ∈ (mergeAsofNearest l r).rows, ∃ row ∈ l.rows,
      row2 = row ++ (asofCols r).map (fun _ => (none : Option α)) := by
  intro row2 h
  simp only [mergeAsofNearest, List.mem_map] at h
  obtain ⟨row, hrow, rfl⟩ := h
  refine ⟨row, hrow, ?_⟩
  cases hl : l.getCell row "time" with
  | none => rfl
  | some t =>
    show (match nearestPick t (asofCands r) with
      | some c => row ++ (asofCols r).map (fun col => r.getCell c.2 col)
      | none => row ++ (asofCols r).map (fun _ => (none : Option α))) = _
    rw [hc]
    rfl

/-- With the steering file absent (or unloadable), the merged master has
no steer column. -/
lemma masterMerged_no_steer (inp : BatchInput α) (rdf : DF α)
    (hst : loadChannel inp.steer = none) : "steer" ∉ (masterMerged inp rdf).cols := by
  have hmm : masterMerged inp rdf =
      addGyro (addGps ((rdf.renameCol "value" "rpm").select ["time", "rpm"])
        (loadChannel inp.gps)) (loadChannel inp.gyro) := by
    unfold masterMerged
    rw [hst]
    rfl
  rw [hmm]
  intro hmem
  rcases addGyro_cols_sub _ _ _ hmem with hmem | hbad
  · rcases addGps_cols_sub _ _ _ hmem with hmem | hbad
    · obtain ⟨hin, -⟩ := select_cols_sub _ _ _ hmem
      simp at hin
    · simp at hbad
  · exact absurd hbad (by decide)

/-- With the steering file loaded but its series empty, the merged master
has a steer column whose every cell is null. -/
lemma masterMerged_empty_steer (inp : BatchInput α) (rdf sdf : DF α)
    (hst : loadChannel inp.steer = some sdf) (hrows : sdf.rows = [])
    (hval : "value" ∈ sdf.cols) :
    "steer" ∈ (masterMerged inp rdf).cols ∧
    ∀ r ∈ (masterMerged inp rdf).rows, (masterMerged inp rdf).getCell r "steer" = none := by
  have htime : "time" ∈ sdf.cols := loadChannel_time inp.steer sdf hst
  have hM1WF : (addGps ((rdf.renameCol "value" "rpm").select ["time", "rpm"])
      (loadChannel inp.gps)).WF :=
    addGps_WF _ _ (select_WF _ _)
  have hnosteer : "steer" ∉ (addGps ((rdf.renameCol "value" "rpm").select ["time", "rpm"])
      (loadChannel inp.gps)).cols := by
    intro hmem
    rcases addGps_cols_sub _ _ _ hmem with hmem | hbad
    · obtain ⟨hin, -⟩ := select_cols_sub _ _ _ hmem
      simp at hin
    · simp at hbad
  -- the selected steer frame
  have hSsteer : "steer" ∈ ((sdf.renameCol "value" "steer").select ["time", "steer"]).cols := by
    rw [select_cols, List.mem_filter]
    refine ⟨by simp, ?_⟩
    rw [hasCol_iff_mem]
    simp only [DF.renameCol, List.mem_map]
    refine ⟨"value", hval, ?_⟩
    rw [if_pos rfl]
  have hSrows : ((sdf.renameCol "value" "steer").select ["time", "steer"]).rows = [] := by
    simp only [DF.select, DF.renameCol]
    rw [hrows]
    rfl
  have hScands : asofCands ((sdf.renameCol "value" "steer").select ["time", "steer"]) = [] := by
    unfold asofCands
    rw [hSrows]
    rfl
  have hSac : "steer" ∈ asofCols ((sdf.renameCol "value" "steer").select ["time", "steer"]) := by
    unfold asofCols
    rw [List.mem_filter]
    exact ⟨hSsteer, by simp⟩
  have hmm : masterMerged inp rdf =
      addGyro (mergeAsofNearest
        (addGps ((rdf.renameCol "value" "rpm").select ["time", "rpm"]) (loadChannel inp.gps))
        ((sdf.renameCol "value" "steer").select ["time", "steer"]))
       (loadChannel inp.gyro) := by
    unfold masterMerged
    rw [hst]
    rfl
  -- the steer invariant on the merged-with-empty-steer frame
  have hM2steer : "steer" ∈ (mergeAsofNearest
      (addGps ((rdf.renameCol "value" "rpm").select ["time", "rpm"]) (loadChannel inp.gps))
      ((sdf.renameCol "value" "steer").select ["time", "steer"])).cols := by
    rw [mergeAsof_cols]
    exact List.mem_append_right _ hSac
  have hM2null : ∀ r2 ∈ (mergeAsofNearest
      (addGps ((rdf.renameCol "value" "rpm").select ["time", "rpm"]) (loadChannel inp.gps))
      ((sdf.renameCol "value" "steer").select ["time", "steer"])).rows,
      (mergeAsofNearest
      (addGps ((rdf.renameCol "value" "rpm").select ["time", "rpm"]) (loadChannel inp.gps))
      ((sdf.renameCol "value" "steer").select ["time", "steer"])).getCell r2 "steer" = none := by
    intro r2 h2
    obtain ⟨row, hrow, rfl⟩ := mergeAsof_empty_rows _ _ hScands r2 h2
    exact (getCell_append_right
      (addGps ((rdf.renameCol "value" "rpm").select ["time", "rpm"])
        (loadChannel inp.gps)).cols
      (asofCols ((sdf.renameCol "value" "steer").select ["time", "steer"])) _ [] row _
      "steer" hnosteer (hM1WF row hrow)).trans (getCell_const_none _ _ _)
  rw [hmm]
  cases hgy : loadChannel inp.gyro with
  | none =>
    refine ⟨hM2steer, ?_⟩
    intro r hr
    exact hM2null r hr
  | some gy =>
    have hM2WF : (mergeAsofNearest
        (addGps ((rdf.renameCol "value" "rpm").select ["time", "rpm"]) (loadChannel inp.gps))
        ((sdf.renameCol "value" "steer").select ["time", "steer"])).WF :=
      mergeAsof_WF _ _ hM1WF
    constructor
    · show "steer" ∈ (mergeAsofNearest _ _).cols
      rw [mergeAsof_cols]
      exact List.mem_append_left _ hM2steer
    · intro r hr
      obtain ⟨row, hrow, heq⟩ := mergeAsof_getCell_left _ _ hM2WF "steer" hM2steer r hr
      exact heq.trans (hM2null row hrow)

end TransportLemmas

/-! ## Format-detector lemmas -/

lemma findHeaderIdx_take (lines : List String) :
    findHeaderIdx (lines.take 20) = findHeaderIdx lines := by
  unfold findHeaderIdx
  rw [List.take_take]
  norm_num

lemma detectFormat_take20 :
    ∀ (files : List (Option (List String))),
      detectFormat (files.map (Option.map (fun ls => ls.take 20))) = detectFormat files := by
  intro files
  induction files with
  | nil => rfl
  | cons f rest ih =>
    cases f with
    | none =>
      show Option.map (fun p : ℕ × ℕ => (p.1 + 1, p.2))
          (detectFormat (rest.map (Option.map (fun ls : List String => ls.take 20)))) =
        Option.map (fun p : ℕ × ℕ => (p.1 + 1, p.2)) (detectFormat rest)
      rw [ih]
    | some lines =>
      show (match findHeaderIdx (lines.take 20) with
            | some i => some ((0 : ℕ), i)
            | none => Option.map (fun p : ℕ × ℕ => (p.1 + 1, p.2))
                (detectFormat (rest.map (Option.map (fun ls : List String => ls.take 20))))) =
        (match findHeaderIdx lines with
            | some i => some ((0 : ℕ), i)
            | none => Option.map (fun p : ℕ × ℕ => (p.1 + 1, p.2)) (detectFormat rest))
      rw [findHeaderIdx_take lines, ih]

lemma findHeaderIdx_spec (lines : List String) (hi : ℕ)
    (h : findHeaderIdx lines = some hi) :
    hi < 20 ∧ (∃ ln, lines[hi]? = some ln ∧ matchLine ln = true) ∧
    ∀ j, j < hi → ∀ y, lines[j]? = some y → matchLine y = false := by
  unfold findHeaderIdx at h
  have hb := findIdx?_bounds _ _ _ _ h
  have hlen : (lines.take 20).length ≤ 20 := by
    rw [List.length_take]
    omega
  have hi20 : hi < 20 := by omega
  refine ⟨hi20, ?_, ?_⟩
  · obtain ⟨x, hx, hpx⟩ := findIdx?_found _ _ _ _ h
    refine ⟨x, ?_, hpx⟩
    simpa [List.getElem?_take, hi20] using hx
  · intro j hj y hy
    have hy' : (lines.take 20)[j - 0]? = some y := by
      simpa [List.getElem?_take, (by omega : j < 20)] using hy
    exact findIdx?_min _ _ _ _ h j (by omega) hj y hy'

lemma detectFormat_spec :
    ∀ (files : List (Option (List String))) (fi hi : ℕ),
      detectFormat files = some (fi, hi) →
      ∃ lines, files[fi]? = some (some lines) ∧ findHeaderIdx lines = some hi ∧
        ∀ g, g < fi → ∀ ls, files[g]? = some (some ls) → findHeaderIdx ls = none := by
  intro files
  induction files with
  | nil => intro fi hi h; cases h
  | cons f rest ih =>
    intro fi hi h
    cases f with
    | none =>
      replace h : Option.map (fun p => (p.1 + 1, p.2)) (detectFormat rest) =
          some (fi, hi) := h
      cases hd : detectFormat rest with
      | none => rw [hd] at h; cases h
      | some p =>
        rw [hd] at h
        replace h : some (p.1 + 1, p.2) = some (fi, hi) := h
        have hh := Option.some.inj h
        have hfi : p.1 + 1 = fi := congrArg Prod.fst hh
        have hhi : p.2 = hi := congrArg Prod.snd hh
        obtain ⟨lines, h1, h2, h3⟩ := ih p.1 p.2 hd
        subst hfi
        subst hhi
        refine ⟨lines, by simpa using h1, h2, ?_⟩
        intro g hg ls hgl
        cases g with
        | zero => simp at hgl
        | succ g' =>
          rw [List.getElem?_cons_succ] at hgl
          exact h3 g' (by omega) ls hgl
    | some lines =>
      replace h : (match findHeaderIdx lines with
          | some i => some ((0 : ℕ), i)
          | none => Option.map (fun p => (p.1 + 1, p.2)) (detectFormat rest)) =
          some (fi, hi) := h
      cases hf : findHeaderIdx lines with
      | some i =>
        rw [hf] at h
        replace h : some ((0 : ℕ), i) = some (fi, hi) := h
        have hh := Option.some.inj h
        have hfi : (0 : ℕ) = fi := congrArg Prod.fst hh
        have hhi : i = hi := congrArg Prod.snd hh
        subst hfi
        subst hhi
        exact ⟨lines, by simp, hf, fun g hg => absurd hg (by omega)⟩
      | none =>
        rw [hf] at h
        replace h : Option.map (fun p => (p.1 + 1, p.2)) (detectFormat rest) =
            some (fi, hi) := h
        cases hd : detectFormat rest with
        | none => rw [hd] at h; cases h
        | some p =>
          rw [hd] at h
          replace h : some (p.1 + 1, p.2) = some (fi, hi) := h
          have hh := Option.some.inj h
          have hfi : p.1 + 1 = fi := congrArg Prod.fst hh
          have hhi : p.2 = hi := congrArg Prod.snd hh
          obtain ⟨ls0, h1, h2, h3⟩ := ih p.1 p.2 hd
          subst hfi
          subst hhi
          refine ⟨ls0, by simpa using h1, h2, ?_⟩
          intro g hg ls hgl
          cases g with
          | zero =>
            rw [List.getElem?_cons_zero] at hgl
            obtain rfl : lines = ls := Option.some.inj (Option.some.inj hgl)
            exact hf
          | succ g' =>
            rw [List.getElem?_cons_succ] at hgl
            exact h3 g' (by omega) ls hgl

/-! ## Claim theorems -/

section Claims
variable {α : Type} [LinearOrderedField α]

/-- C5: in batch mode, when the RPM file is absent — whatever the state of
the GPS, steering and gyro files — the stitch fails with a null table and
the reason string naming the RPM file; no partial table is returned. -/
theorem batch_missing_rpm_fails (piV : α) (inp : BatchInput α) (h : inp.rpm = none) :
    processBatchFiles piV inp = some (none, "RPM file missing.") := by
  apply processBatch_of_no_rpm
  rw [h]
  rfl

theorem batch_missing_rpm_fails_witness :
    processBatchFiles (0 : ℚ)
      (BatchInput.mk none
        (some (some (DF.mk ["time", "speed", "lat", "lon"] [[some 0, some 10, some 1, some 2]])))
        (some (some (DF.mk ["time", "value"] [[some 0, some 3]])))
        (some (some (DF.mk ["time", "value"] [[some 0, some 4]])))) =
      some (none, "RPM file missing.") :=
  batch_missing_rpm_fails 0 _ rfl

/-- C10: the batch failure `(None, "RPM file missing.")` is produced not
only when `RPM.csv` is absent but also when the file is present and
`read_csv` raises, or parses to a frame with no `time` column after name
normalisation. -/
theorem batch_malformed_rpm_reported_missing (piV : α) (inp : BatchInput α)
    (h : inp.rpm = some none ∨
      ∃ raw, inp.rpm = some (some raw) ∧ "time" ∉ raw.normalizeCols.cols) :
    processBatchFiles piV inp = some (none, "RPM file missing.") := by
  apply processBatch_of_no_rpm
  rcases h with h | ⟨raw, h, hno⟩
  · rw [h]; rfl
  · have hcol : ¬ (raw.normalizeCols.hasCol "time") = true := by
      rw [hasCol_iff_mem]; exact hno
    simp only [loadChannel, h]
    rw [if_neg hcol]

theorem batch_malformed_rpm_reported_missing_witness :
    processBatchFiles (0 : ℚ) (BatchInput.mk (some none) none none none) =
      some (none, "RPM file missing.") ∧
    processBatchFiles (0 : ℚ)
      (BatchInput.mk (some (some (DF.mk ["t", "value"] [[some 0, some 1]]))) none none none) =
      some (none, "RPM file missing.") :=
  ⟨batch_malformed_rpm_reported_missing 0 _ (Or.inl rfl),
   batch_malformed_rpm_reported_missing 0 _ (Or.inr ⟨_, rfl, by decide⟩)⟩

/-- C2, counterexample: with the RPM and GPS channels present (so a speed
channel exists), the batch output has a `speed` derived column pipeline
running (`speed_mph` present) yet contains no `long_g` column at all,
contradicting the claimed longitudinal-g computation. -/
theorem batch_long_g_counterexample :
    "speed_mph" ∈ (batchTable (processBatchFiles (0 : ℚ)
        (BatchInput.mk
          (some (some (DF.mk ["time", "value"] [[some 0, some 100]])))
          (some (some (DF.mk ["time", "speed", "lat", "lon"] [[some 0, some 10, some 1, some 2]])))
          none none))).cols ∧
    "long_g" ∉ (batchTable (processBatchFiles (0 : ℚ)
        (BatchInput.mk
          (some (some (DF.mk ["time", "value"] [[some 0, some 100]])))
          (some (some (DF.mk ["time", "speed", "lat", "lon"] [[some 0, some 10, some 1, some 2]])))
          none none))).cols := by
  constructor
  · decide
  · decide

/-- C2, amended: the batch path of the stitcher derives no longitudinal-g
column at all — every successful batch output lacks a `long_g` column,
whether or not a speed channel is present (the only derived columns are
`speed_mph`, `lat_g` and `lap`). -/
theorem batch_derives_no_long_g (piV : α) (inp : BatchInput α) (out : DF α) (msg : String)
    (h : processBatchFiles piV inp = some (some out, msg)) : "long_g" ∉ out.cols := by
  intro hmem
  have h10 := batch_cols_sub piV inp out msg h "long_g" hmem
  simp at h10

theorem batch_derives_no_long_g_witness :
    "long_g" ∉ (DF.mk ["time", "rpm", "lap"] [[some (0 : ℚ), some 100, some 0]]).cols :=
  batch_derives_no_long_g 0
    (BatchInput.mk (some (some (DF.mk ["time", "value"] [[some 0, some 100]]))) none none none)
    (DF.mk ["time", "rpm", "lap"] [[some 0, some 100, some 0]]) "Success (Batch)" (by decide)

/-- C3, counterexample: the batch output keeps the raw `speed` (and `lat`,
`lon`) columns, which are outside the claimed canonical set; and the
single-file output's time column is capitalised `Time`, not the canonical
`time`. -/
theorem stitch_cols_counterexample :
    "speed" ∈ (batchTable (processBatchFiles (0 : ℚ)
        (BatchInput.mk
          (some (some (DF.mk ["time", "value"] [[some 0, some 100]])))
          (some (some (DF.mk ["time", "speed", "lat", "lon"] [[some 0, some 10, some 1, some 2]])))
          none none))).cols ∧
    "speed" ∉ ["time", "rpm", "speed_mph", "steer", "lat_g", "long_g", "lap"] ∧
    "Time" ∈ (((processSingleFile
        (DF.mk ["\"Time\"", "\"RPM\""] [[none, none], [some (0 : ℚ), some 5000]])
        [1]).1.map DF.cols).getD []) ∧
    "time" ∉ (((processSingleFile
        (DF.mk ["\"Time\"", "\"RPM\""] [[none, none], [some (0 : ℚ), some 5000]])
        [1]).1.map DF.cols).getD []) := by
  refine ⟨by decide, by decide, by decide, by decide⟩

/-- C3, amended: a successful batch stitch returns a table whose columns
are drawn from `{time, rpm, speed, lat, lon, steer, yaw_rate, speed_mph,
lat_g, lap}` — the canonical names plus the raw merge columns — with `lap`
present and equal to 0 in every row, together with the batch status
message; a successful single-file stitch returns a table whose columns are
drawn from `{Time, lap, rpm, speed_mph, steer, lat_g, long_g}` (the time
column keeps its capitalised export name), with `lap` present, together
with the single-file status message. -/
theorem stitch_cols_amended (piV : α) :
    (∀ (inp : BatchInput α) (out : DF α) (msg : String),
      processBatchFiles piV inp = some (some out, msg) →
      (∀ x ∈ out.cols,
        x ∈ ["time", "rpm", "speed", "lat", "lon", "steer", "yaw_rate",
             "speed_mph", "lat_g", "lap"]) ∧
      msg = "Success (Batch)" ∧
      ∀ r ∈ out.rows, out.getCell r "lap" = some 0) ∧
    (∀ (raw : DF α) (markers : List α) (out : DF α) (msg : String),
      processSingleFile raw markers = (some out, msg) →
      (∀ x ∈ out.cols,
        x ∈ ["Time", "lap", "rpm", "speed_mph", "steer", "lat_g", "long_g"]) ∧
      "lap" ∈ out.cols ∧ msg = "Success (Single File)") := by
  constructor
  · intro inp out msg h
    obtain ⟨rdf, hl, ho, hm⟩ := processBatch_success_rpm piV inp out msg h
    subst ho
    exact ⟨batch_cols_sub piV inp _ msg h, hm,
      physicsDerive_lap_cell piV _ (masterMerged_WF inp rdf) (masterMerged_cols_sub inp rdf)⟩
  · intro raw markers out msg h
    obtain ⟨hmsg, hsub, hlap⟩ := processSingleFile_parts raw markers out msg h
    exact ⟨hsub, hlap, hmsg⟩

theorem stitch_cols_amended_witness :
    ("time" ∈ ["time", "rpm", "speed", "lat", "lon", "steer", "yaw_rate",
               "speed_mph", "lat_g", "lap"] ∧
     (DF.mk ["time", "rpm", "lap"]
        [[some (0 : ℚ), some 100, some 0]]).getCell [some 0, some 100, some 0] "lap" =
       some 0) ∧
    ("lap" ∈ (DF.mk ["Time", "lap", "rpm"] [[some (0 : ℚ), some 1, some 5000]]).cols ∧
     (processSingleFile
        (DF.mk ["\"Time\"", "\"RPM\""] [[none, none], [some (0 : ℚ), some 5000]])
        [1]).2 = "Success (Single File)") := by
  have hb := (stitch_cols_amended (0 : ℚ)).1
    (BatchInput.mk (some (some (DF.mk ["time", "value"] [[some 0, some 100]]))) none none none)
    (DF.mk ["time", "rpm", "lap"] [[some 0, some 100, some 0]]) "Success (Batch)" (by decide)
  have hs := (stitch_cols_amended (0 : ℚ)).2
    (DF.mk ["\"Time\"", "\"RPM\""] [[none, none], [some (0 : ℚ), some 5000]]) [1]
    (DF.mk ["Time", "lap", "rpm"]
      [[some 0, some 1, some 5000]]) "Success (Single File)" (by decide)
  exact ⟨⟨hb.1 "time" (by decide), hb.2.2 [some 0, some 100, some 0] (by decide)⟩,
    hs.2.1, by decide⟩

/-- C6, counterexample: an RPM file that parses and has a (unique) `time`
column is not enough for the batch stitch to succeed, so the output row
count is not always defined, let alone equal to the RPM row count: a frame
with a `time` column but no `value` column loads, passes the
`'rpm' not in data_frames` check, and then crashes with an uncaught
`KeyError` at line 125 (no table at all); and a frame whose normalised
headers duplicate `time` is skipped by the loader and yields the
missing-RPM failure. -/
theorem batch_row_count_counterexample :
    loadChannel (some (some (DF.mk ["time"] [[some (0 : ℚ)]]))) ≠ none ∧
    processBatchFiles (0 : ℚ)
      (BatchInput.mk (some (some (DF.mk ["time"] [[some 0]]))) none none none) = none ∧
    "time" ∈ (DF.mk ["Time", "TIME"] [[some (0 : ℚ), some 1]]).normalizeCols.cols ∧
    processBatchFiles (0 : ℚ)
      (BatchInput.mk (some (some (DF.mk ["Time", "TIME"] [[some 0, some 1]]))) none none none) =
      some (none, "RPM file missing.") := by
  refine ⟨by decide, by decide, by decide, by decide⟩

/-- C6, amended: whenever the batch stitch returns an output table, its
row count equals the loaded RPM channel's row count (rows with
unparseable timestamps dropped) — none of the optional merges, the gap
fill or the derived columns adds or removes rows; and for channels in
their canonical layouts (`time`/`value` for RPM, steering and gyro,
`time`/`speed`/`lat`/`lon` for GPS) no `KeyError` is raised, the stitch
succeeds and that row count is realised.  An RPM frame without a `value`
column instead crashes at line 125, and one whose normalised headers
duplicate `time` is reported as a missing RPM file. -/
theorem batch_row_count_eq_rpm :
    (∀ (piV : α) (inp : BatchInput α) (rdf out : DF α) (msg : String),
      loadChannel inp.rpm = some rdf →
      processBatchFiles piV inp = some (some out, msg) →
      out.rows.length = rdf.rows.length) ∧
    (∀ (piV : α) (inp : BatchInput α) (raw : DF α),
      inp.rpm = some (some raw) →
      raw.normalizeCols.cols = ["time", "value"] →
      (loadChannel inp.gps = none ∨
        ∃ gdf, loadChannel inp.gps = some gdf ∧
          gdf.cols = ["time", "speed", "lat", "lon"]) →
      (loadChannel inp.steer = none ∨
        ∃ sdf, loadChannel inp.steer = some sdf ∧ sdf.cols = ["time", "value"]) →
      (loadChannel inp.gyro = none ∨
        ∃ gdf, loadChannel inp.gyro = some gdf ∧ gdf.cols = ["time", "value"]) →
      ∃ out, processBatchFiles piV inp = some (some out, "Success (Batch)") ∧
        out.rows.length = (raw.normalizeCols.dropnaOn "time").rows.length) := by
  constructor
  · intro piV inp rdf out msg hl h
    obtain ⟨ho, -⟩ := processBatch_success piV inp rdf out msg hl h
    rw [ho, physicsDerive_rows_length, masterMerged_rows_length]
  · intro piV inp raw h1 hcols hgps hst hgy
    have hc1 : (raw.normalizeCols).hasCol "time" = true := by
      rw [hasCol_iff_mem, hcols]
      decide
    have hc2 : (raw.normalizeCols).cols.count "time" = 1 := by
      rw [hcols]
      decide
    have hl : loadChannel inp.rpm =
        some ((raw.normalizeCols.dropnaOn "time").sortOn "time") := by
      simp only [loadChannel, h1]
      rw [if_pos hc1, if_pos hc2]
    have hrcols : ((raw.normalizeCols.dropnaOn "time").sortOn "time").cols =
        ["time", "value"] := by
      rw [sortOn_cols, dropnaOn_cols, hcols]
    have hok1 : (["time", "rpm"].all
        ((((raw.normalizeCols.dropnaOn "time").sortOn "time").renameCol
          "value" "rpm").hasCol)) = true := by
      simp only [DF.renameCol]
      rw [hrcols]
      rfl
    have hok2 : ∀ sdf, loadChannel inp.steer = some sdf →
        (["time", "steer"].all ((sdf.renameCol "value" "steer").hasCol)) = true := by
      intro sdf hsd
      rcases hst with hnone | ⟨sdf2, hsd2, hc⟩
      · rw [hnone] at hsd
        cases hsd
      · rw [hsd2] at hsd
        obtain rfl := Option.some.inj hsd
        simp only [DF.renameCol]
        rw [hc]
        rfl
    have hok3 : ∀ gdf, loadChannel inp.gyro = some gdf →
        (["time", "yaw_rate"].all ((gdf.renameCol "value" "yaw_rate").hasCol)) = true := by
      intro gdf hgd
      rcases hgy with hnone | ⟨gdf2, hgd2, hc⟩
      · rw [hnone] at hgd
        cases hgd
      · rw [hgd2] at hgd
        obtain rfl := Option.some.inj hgd
        simp only [DF.renameCol]
        rw [hc]
        rfl
    have hm := masterMergedE_ok inp ((raw.normalizeCols.dropnaOn "time").sortOn "time")
      hok1 hok2 hok3
    refine ⟨_, processBatch_of_rpm_ok piV inp _ _ hl hm, ?_⟩
    rw [physicsDerive_rows_length, masterMerged_rows_length, sortOn_rows_length]

theorem batch_row_count_eq_rpm_witness :
    (DF.mk ["time", "rpm", "lap"] [[some (0 : ℚ), some 100, some 0]]).rows.length =
      (wRpm : DF ℚ).rows.length ∧
    (∃ out : DF ℚ, processBatchFiles (0 : ℚ) wInpQ1 = some (some out, "Success (Batch)") ∧
      out.rows.length = ((wRpm : DF ℚ).normalizeCols.dropnaOn "time").rows.length) := by
  constructor
  · exact (@batch_row_count_eq_rpm ℚ _).1 0 wInpQ1 wRpm
      (DF.mk ["time", "rpm", "lap"] [[some 0, some 100, some 0]]) "Success (Batch)"
      (by decide) (by decide)
  · exact (@batch_row_count_eq_rpm ℚ _).2 0 wInpQ1 wRpm rfl (by decide)
      (Or.inl rfl) (Or.inl rfl) (Or.inl rfl)

/-- C1, counterexample: with sorted positive markers `[1, 2]` and row times
`0, 1, 2`, the rows at times `1 ≤ 2` get laps `2 > 1` — the lap column is
not monotone in time, because the row at (or after) the last beacon falls
back to the default lap 1 instead of a later lap; for the same reason the
row at `time = 2` (the last marker) is in lap 1, not the lap after that
boundary. -/
theorem single_file_lap_counterexample :
    (assignLaps [some (0 : ℚ), some 1, some 2] [1, 2]) = [1, 2, 1] ∧
    (assignLaps [some (0 : ℚ), some 1, some 2] [1, 2])[1]? = some 2 ∧
    (assignLaps [some (0 : ℚ), some 1, some 2] [1, 2])[2]? = some 1 ∧
    ((1 : ℚ) ≤ 2 ∧ ¬ ((2 : ℕ) ≤ 1)) := by
  refine ⟨by decide, by decide, by decide, by decide, by decide⟩

/-- C1, amended: for sorted (strictly ascending, non-negative) beacon
markers, every lap value is an integer ≥ 1; restricted to rows whose time
lies in `[0, last marker)` the lap column is monotone in time; and a row
whose time equals a non-final marker belongs to the lap after that
boundary (marker `k` ends lap `k + 1`, so the row gets `k + 2`).  Rows at
or beyond the last marker keep the default lap 1 and so may break
monotonicity. -/
theorem single_file_lap_amended (times : List (Option α)) (markers : List α)
    (hne : markers ≠ []) (hsort : markers.Pairwise (· < ·))
    (hpos : ∀ m ∈ markers, 0 ≤ m) :
    (∀ l ∈ assignLaps times markers, 1 ≤ l) ∧
    (∀ (i j : ℕ) (ti tj : α) (li lj : ℕ),
      times[i]? = some (some ti) → times[j]? = some (some tj) →
      (assignLaps times markers)[i]? = some li →
      (assignLaps times markers)[j]? = some lj →
      0 ≤ ti → ti ≤ tj → tj < markers.getLast hne → li ≤ lj) ∧
    (∀ (i k : ℕ) (ti mv : α),
      times[i]? = some (some ti) → markers[k]? = some mv → ti = mv →
      k + 1 < markers.length →
      (assignLaps times markers)[i]? = some (k + 2)) := by
  refine ⟨?_, ?_, ?_⟩
  · intro l hl
    rw [List.mem_iff_getElem?] at hl
    obtain ⟨i, hi⟩ := hl
    rw [assignLaps_getElem] at hi
    cases ht : times[i]? with
    | none => rw [ht] at hi; cases hi
    | some t =>
      rw [ht] at hi
      obtain rfl : (lapPointFold t markers (1, 0, 1)).1 = l := Option.some.inj hi
      exact lapPointFold_ge_one t markers (1, 0, 1) le_rfl le_rfl
  · intro i j ti tj li lj hti htj hli hlj h0 hij hjlast
    rw [assignLaps_getElem, hti] at hli
    rw [assignLaps_getElem, htj] at hlj
    obtain rfl : (lapPointFold (some ti) markers (1, 0, 1)).1 = li := Option.some.inj hli
    obtain rfl : (lapPointFold (some tj) markers (1, 0, 1)).1 = lj := Option.some.inj hlj
    rw [lapPointFold_char ti markers hne 1 0 1 h0 hsort (lt_of_le_of_lt hij hjlast)]
    rw [lapPointFold_char tj markers hne 1 0 1 (le_trans h0 hij) hsort hjlast]
    have hcount : markers.countP (fun m => m ≤ ti) ≤ markers.countP (fun m => m ≤ tj) :=
      List.countP_mono_left (fun x _ hx =>
        decide_eq_true (le_trans (of_decide_eq_true hx) hij))
    omega
  · intro i k ti mv hti hk heq hklen
    subst heq
    rw [assignLaps_getElem, hti]
    have hmem : ti ∈ markers := by
      rw [List.mem_iff_getElem?]
      exact ⟨k, hk⟩
    rcases List.getElem?_eq_some.mp hk with ⟨hklt, hkv⟩
    have hlast : ti < markers.getLast hne := by
      have hp := List.pairwise_iff_getElem.mp hsort k (markers.length - 1)
        hklt (by omega) (by omega)
      rw [List.getLast_eq_getElem]
      exact lt_of_eq_of_lt hkv.symm hp
    show some ((lapPointFold (some ti) markers (1, 0, 1)).1) = some (k + 2)
    rw [lapPointFold_char ti markers hne 1 0 1 (hpos ti hmem) hsort hlast]
    rw [countP_le_of_sorted markers k ti hsort hk]
    congr 1
    omega

theorem single_file_lap_amended_witness :
    ((1 : ℕ) ≤ 2) ∧ (assignLaps [some (0 : ℚ), some 1] [1, 2])[1]? = some (0 + 2) := by
  have T := @single_file_lap_amended ℚ _ [some 0, some 1] [1, 2] (by decide)
    (by decide) (by decide)
  exact ⟨T.2.1 0 1 0 1 1 2 (by decide) (by decide) (by decide) (by decide) (by decide)
      (by decide) (by decide),
    T.2.2 1 0 1 1 (by decide) (by decide) (by decide) (by decide)⟩

/-- C4, counterexample: with beacon `[1]` and a row at time `2` (at/after
the last beacon), the loop's final counter is `2`, but the row's lap is
the untouched default `1`, not the final counter value. -/
theorem rows_after_last_beacon_counterexample :
    (assignLaps [some (0 : ℚ), some 2] [1])[1]? = some 1 ∧
    (assignLapsFold [some (0 : ℚ), some 2] [1]).2.2 = 2 ∧
    ¬ ((1 : ℕ) = 2) := by
  refine ⟨by decide, by decide, by decide⟩

/-- C4, amended: with the markers ascending, a row whose time is at or
after the last beacon marker is never reassigned by the loop and keeps the
initial default lap 1 — not the loop's final counter value, which equals
the marker count plus one. -/
theorem rows_after_last_beacon_lap (times : List (Option α)) (markers : List α)
    (hne : markers ≠ []) (hsort : markers.Pairwise (· ≤ ·)) :
    (∀ (i : ℕ) (ti : α) (li : ℕ), times[i]? = some (some ti) →
      (assignLaps times markers)[i]? = some li →
      markers.getLast hne ≤ ti → li = 1) ∧
    (assignLapsFold times markers).2.2 = markers.length + 1 := by
  constructor
  · intro i ti li hti hli hlast
    rw [assignLaps_getElem, hti] at hli
    obtain rfl : (lapPointFold (some ti) markers (1, 0, 1)).1 = li := Option.some.inj hli
    apply lapPointFold_keep
    intro m hm hcon
    exact absurd (lt_of_lt_of_le hcon (le_trans
      (le_getLast_of_pairwise markers hne hsort m hm) hlast)) (lt_irrefl ti)
  · unfold assignLapsFold
    rw [lapFold_counter times markers _ 0 1]
    omega

theorem rows_after_last_beacon_lap_witness :
    ((1 : ℕ) = 1) ∧ (assignLapsFold [some (0 : ℚ), some 3] [1]).2.2 = [(1 : ℚ)].length + 1 := by
  have T := @rows_after_last_beacon_lap ℚ _ [some 0, some 3] [1] (by decide) (by decide)
  exact ⟨T.1 1 3 1 (by decide) (by decide) (by decide), T.2⟩

/-- C8: the format detector inspects at most the 20 leading lines of each
file (its result is unchanged if every file is truncated to 20 lines); a
detection at `(fi, hi)` means file `fi` was readable, line `hi < 20`
contains both header tokens, no earlier line of that file matches, and
every earlier file either failed to open (skipped, `files[g]?` is not
`some (some _)`) or scanned clean; the matched line index is handed to the
single-file processor as the header offset; and only when no file matches
does the orchestrator fall back to the batch path. -/
theorem detector_spec (piV : α) (files : List (Option (List String))) (inp : BatchInput α) :
    detectFormat files = detectFormat (files.map (Option.map (fun ls => ls.take 20))) ∧
    (∀ (fi hi : ℕ), detectFormat files = some (fi, hi) →
      hi < 20 ∧
      (∃ lines, files[fi]? = some (some lines) ∧
        (∃ ln, lines[hi]? = some ln ∧ matchLine ln = true) ∧
        (∀ j, j < hi → ∀ y, lines[j]? = some y → matchLine y = false) ∧
        (∀ g, g < fi → ∀ ls, files[g]? = some (some ls) → findHeaderIdx ls = none)) ∧
      loadAndStitchFromFolder piV files inp = StitchOutcome.single fi hi) ∧
    (detectFormat files = none →
      loadAndStitchFromFolder piV files inp = StitchOutcome.batch (processBatchFiles piV inp)) := by
  refine ⟨(detectFormat_take20 files).symm, ?_, ?_⟩
  · intro fi hi h
    obtain ⟨lines, h1, h2, h3⟩ := detectFormat_spec files fi hi h
    obtain ⟨h20, hfound, hmin⟩ := findHeaderIdx_spec lines hi h2
    refine ⟨h20, ⟨lines, h1, hfound, hmin, h3⟩, ?_⟩
    unfold loadAndStitchFromFolder
    rw [h]
  · intro h
    unfold loadAndStitchFromFolder
    rw [h]

theorem detector_spec_witness :
    ((1 : ℕ) < 20) ∧
    loadAndStitchFromFolder (0 : ℚ)
      [none, some ["junk", "\"Time\",\"GPS Speed\",\"RPM\""], some ["x"]]
      (BatchInput.mk none none none none) = StitchOutcome.single 1 1 ∧
    loadAndStitchFromFolder (0 : ℚ) [some ["junk"]] (BatchInput.mk none none none none) =
      StitchOutcome.batch (processBatchFiles 0 (BatchInput.mk none none none none)) := by
  have T := detector_spec (0 : ℚ)
    [none, some ["junk", "\"Time\",\"GPS Speed\",\"RPM\""], some ["x"]]
    (BatchInput.mk none none none none)
  have T2 := detector_spec (0 : ℚ) [some ["junk"]] (BatchInput.mk none none none none)
  have hd := T.2.1 1 1 (by decide)
  exact ⟨hd.1, hd.2.2, T2.2.2 (by decide)⟩

/-- C7, counterexample: a steering file that parses (with `time` and
`value` columns) but whose every timestamp fails numeric coercion loads as
an empty series; the claim says its column is then omitted, but the batch
output still contains a `steer` column (zero-filled). -/
theorem nearest_join_counterexample :
    loadChannel (some (some (wSteerNaN : DF ℚ))) ≠ none ∧
    (loadChannel (some (some (wSteerNaN : DF ℚ)))).map DF.rows = some [] ∧
    "steer" ∈ (batchTable (processBatchFiles (0 : ℚ) wInpQ2)).cols := by
  refine ⟨by decide, by decide, by decide⟩

/-- C7, amended: on a time-sorted candidate list the nearest-timestamp
join attaches, for each reference row, the cells of the candidate whose
timestamp is closest, ties broken toward the earlier candidate; a channel
whose file is absent or unloadable contributes no column; but a channel
that loads with an *empty* series still contributes its column — each
reference row gets a null cell, which the final gap fill turns into 0. -/
theorem nearest_join_amended :
    (∀ (t : α) (cands : List (α × List (Option α))),
      List.Pairwise (fun u v => u.1 < v.1) cands →
      ∀ c, nearestPick t cands = some c →
        c ∈ cands ∧
        ∀ d ∈ cands, |c.1 - t| < |d.1 - t| ∨ (|c.1 - t| = |d.1 - t| ∧ c.1 ≤ d.1)) ∧
    (∀ (l r : DF α), ∀ row2 ∈ (mergeAsofNearest l r).rows, ∃ row ∈ l.rows,
      (∀ t, l.getCell row "time" = some t →
        (∀ c, nearestPick t (asofCands r) = some c →
          row2 = row ++ (asofCols r).map (fun col => r.getCell c.2 col)) ∧
        (nearestPick t (asofCands r) = none →
          row2 = row ++ (asofCols r).map (fun _ => (none : Option α)))) ∧
      (l.getCell row "time" = none →
        row2 = row ++ (asofCols r).map (fun _ => (none : Option α)))) ∧
    (∀ (piV : α) (inp : BatchInput α) (out : DF α) (msg : String),
      loadChannel inp.steer = none →
      processBatchFiles piV inp = some (some out, msg) → "steer" ∉ out.cols) ∧
    (∀ (piV : α) (inp : BatchInput α) (sdf out : DF α) (msg : String),
      loadChannel inp.steer = some sdf → sdf.rows = [] → "value" ∈ sdf.cols →
      processBatchFiles piV inp = some (some out, msg) →
      "steer" ∈ out.cols ∧ ∀ row ∈ out.rows, out.getCell row "steer" = some 0) := by
  refine ⟨nearestPick_spec, mergeAsof_row_spec, ?_, ?_⟩
  · intro piV inp out msg hst h
    obtain ⟨rdf, hl, ho, -⟩ := processBatch_success_rpm piV inp out msg h
    subst ho
    intro hmem
    rcases physicsDerive_cols_sub _ _ _ hmem with hmem | hbad
    · exact masterMerged_no_steer inp rdf hst hmem
    · exact absurd hbad (by decide)
  · intro piV inp sdf out msg hst hrows hval h
    obtain ⟨rdf, hl, ho, -⟩ := processBatch_success_rpm piV inp out msg h
    subst ho
    obtain ⟨hmem, hnull⟩ := masterMerged_empty_steer inp rdf sdf hst hrows hval
    refine ⟨physicsDerive_cols_mono piV _ "steer" hmem, ?_⟩
    intro row hrow
    obtain ⟨r, hr, hall, -⟩ := physicsDerive_row_spec piV (masterMerged inp rdf)
      (masterMerged_WF inp rdf) (masterMerged_cols_sub inp rdf) row hrow
    rw [hall "steer" hmem, hnull r hr]
    rfl

set_option maxHeartbeats 2000000 in
theorem nearest_join_amended_witness :
    (((1 : ℚ), [some (7 : ℚ)]) ∈ [((1 : ℚ), [some (7 : ℚ)])] ∧
      (|(1 : ℚ) - 0| < |(1 : ℚ) - 0| ∨
        (|(1 : ℚ) - 0| = |(1 : ℚ) - 0| ∧ (1 : ℚ) ≤ 1))) ∧
    "steer" ∉ (batchTable (processBatchFiles (0 : ℚ) wInpQ1)).cols ∧
    ("steer" ∈ (batchTable (processBatchFiles (0 : ℚ) wInpQ2)).cols ∧
      (batchTable (processBatchFiles (0 : ℚ) wInpQ2)).getCell
        ((batchTable (processBatchFiles (0 : ℚ) wInpQ2)).rows.headD [])
        "steer" = some 0) := by
  have ha := (@nearest_join_amended ℚ _).1 0 [((1 : ℚ), [some (7 : ℚ)])] (by decide)
    ((1 : ℚ), [some (7 : ℚ)]) (by decide)
  have hc := (@nearest_join_amended ℚ _).2.2.1 0 wInpQ1
    (DF.mk ["time", "rpm", "lap"] [[some 0, some 100, some 0]]) "Success (Batch)"
    rfl (by decide)
  have hd := (@nearest_join_amended ℚ _).2.2.2 0 wInpQ2
    (DF.mk ["time", "value"] [])
    (DF.mk ["time", "rpm", "steer", "lap"] [[some 0, some 100, some 0, some 0]])
    "Success (Batch)" (by decide) rfl (by decide) (by decide)
  have he1 : processBatchFiles (0 : ℚ) wInpQ1 =
      some (some (DF.mk ["time", "rpm", "lap"] [[some 0, some 100, some 0]]),
        "Success (Batch)") := by
    decide
  have he2 : processBatchFiles (0 : ℚ) wInpQ2 =
      some (some (DF.mk ["time", "rpm", "steer", "lap"] [[some 0, some 100, some 0, some 0]]),
        "Success (Batch)") := by
    decide
  rw [he1, he2]
  exact ⟨⟨ha.1, ha.2 ((1 : ℚ), [some (7 : ℚ)]) (by decide)⟩, hc, hd.1,
    hd.2 [some 0, some 100, some 0, some 0] (by decide)⟩

/-- C9: after the batch merge, whenever both a speed column and a yaw-rate
column are present, every output row's lateral g equals the negation of
(speed times the yaw rate converted from degrees per second to radians per
second) divided by 9.81, computed from that row's (gap-filled) speed and
yaw-rate values. -/
theorem batch_lat_g_formula (inp : BatchInput ℝ) (rdf : DF ℝ)
    (hrpm : loadChannel inp.rpm = some rdf)
    (hs : "speed" ∈ (masterMerged inp rdf).cols)
    (hy : "yaw_rate" ∈ (masterMerged inp rdf).cols) :
    ∀ (out : DF ℝ) (msg : String), processBatchFiles Real.pi inp = some (some out, msg) →
      ∀ row ∈ out.rows, ∃ s y, out.getCell row "speed" = some s ∧
        out.getCell row "yaw_rate" = some y ∧
        out.getCell row "lat_g" = some (s * (y * Real.pi / 180) / (981/100) * (-1)) := by
  intro out msg h row hrow
  obtain ⟨ho, -⟩ := processBatch_success Real.pi inp rdf out msg hrpm h
  subst ho
  obtain ⟨r, hr, hall, hlat⟩ := physicsDerive_row_spec Real.pi (masterMerged inp rdf)
    (masterMerged_WF inp rdf) (masterMerged_cols_sub inp rdf) row hrow
  exact ⟨_, _, hall "speed" hs, hall "yaw_rate" hy, hlat hs hy⟩

set_option maxHeartbeats 4000000 in
theorem batch_lat_g_formula_witness :
    (batchTable (processBatchFiles Real.pi wInpR)).getCell
      ((batchTable (processBatchFiles Real.pi wInpR)).rows.headD [])
      "lat_g" = some ((10 : ℝ) * ((3 : ℝ) * Real.pi / 180) / (981/100) * (-1)) := by
  obtain ⟨s, y, h1, h2, h3⟩ := batch_lat_g_formula wInpR wRpm rfl (by decide) (by decide)
    (batchTable (processBatchFiles Real.pi wInpR)) "Success (Batch)" rfl
    ((batchTable (processBatchFiles Real.pi wInpR)).rows.headD [])
    (List.mem_cons_self _ _)
  obtain rfl : s = 10 := by
    have hev : (batchTable (processBatchFiles Real.pi wInpR)).getCell
        ((batchTable (processBatchFiles Real.pi wInpR)).rows.headD [])
        "speed" = some (10 : ℝ) := rfl
    exact Option.some.inj (h1.symm.trans hev)
  obtain rfl : y = 3 := by
    have hev : (batchTable (processBatchFiles Real.pi wInpR)).getCell
        ((batchTable (processBatchFiles Real.pi wInpR)).rows.headD [])
        "yaw_rate" = some (3 : ℝ) := rfl
    exact Option.some.inj (h2.symm.trans hev)
  exact h3

end Claims

end KartStitch
